import Mathlib

/-!
Verification of the bonaventure interactive-fiction engine core.

This development shallow-embeds the world model of the source repository: the
component store used throughout src, the physical subsystem (src/phys.rs),
the rule monitor (src/rule_monitor.rs), the player control system
(src/player_control.rs) and the game loop (src/lib.rs).

Machine integers (usize entity IDs) are modelled as Nat.  Hash maps keyed by
entity ID are modelled as association lists (first-match lookup, in-place
value update).  Hash sets are modelled as duplicate-free lists (insert skips
an element that is already present, remove filters it out).  Rendering calls
into the external visual module are modelled as abstract output events
accumulated in a list, so that operations stay pure.

The repository snapshot under src omits several modules that the files
present there call into (world.rs with the World struct and its accessors,
the event-aware rule.rs with allows and fire_event, script.rs, visual.rs,
command.rs, and the Game undo bookkeeping).  Every definition standing in
for such a missing module carries a doc comment starting with: Modelled from
the spec.  All other definitions are translated directly from the source
files under src.
-/

namespace Bonaventure

/-- Entity identifier: src/types.rs defines ID as usize. -/
abbrev ID := Nat

/-- Movement directions (src/types.rs Dir).  The Rust variant In is rendered
as inside because in is a Lean keyword. -/
inductive Dir
  | north | south | east | west | up | down | inside | out
  deriving DecidableEq, Repr

/-- Modelled from the spec: the Flag type of the missing newer types.rs.  The
constructors are exactly the flags used by the files under src: Scenery,
Immovable, Seen(room), Dead, FireOnce, Fired, and scenario-defined User
flags. -/
inductive Flag
  | scenery | immovable | seen (room : ID) | dead | fireOnce | fired
  | user (name : String)
  deriving DecidableEq, Repr

/-- Modelled from the spec: link targets of the missing newer types.rs; a
direction maps either to a destination room or to a dead-end message. -/
inductive LinkDest
  | room (id : ID)
  | deadEnd (text : String)
  deriving DecidableEq, Repr

/-- Modelled from the spec: the semantic events of the missing newer
types.rs, as used by src/phys.rs and src/world_builder.rs: GetThing,
ReadThing, EnterRoom, plus the generic per-turn event. -/
inductive Event
  | getThing (pid thing : ID)
  | readThing (pid thing : ID)
  | enterRoom (pid room : ID)
  | turn
  deriving DecidableEq, Repr

/-- Modelled from the spec: prose kinds (room description, examine text,
read text, scenery text) of the missing newer types.rs. -/
inductive ProseType
  | room | thing | book | scenery
  deriving DecidableEq, Repr

/-- Modelled from the spec: rule predicates.  The source stores boxed pure
closures over the World; following the design note of the spec they are
embedded as first-order data with an evaluation function, covering the
predicate shapes used by the scenarios (always true, always false, flag
tests, turn-counter tests). -/
inductive Pred
  | always
  | never
  | hasFlagP (id : ID) (f : Flag)
  | lacksFlagP (id : ID) (f : Flag)
  | clockIs (n : Nat)
  deriving DecidableEq, Repr

/-- Modelled from the spec: script actions of the missing script.rs, exactly
the primitives the builder can attach (src/world_builder.rs RuleBuilder:
print, set_flag, unset_flag, forget, kill, revive).  Tag arguments are
resolved to IDs at build time, so actions carry IDs here. -/
inductive Action
  | print (text : String)
  | setFlag (target : ID) (flag : Flag)
  | unsetFlag (target : ID) (flag : Flag)
  | forget (thing : ID)
  | kill (target : ID)
  | revive (target : ID)
  deriving DecidableEq, Repr

/-- Rendering events.  The visual module is an external collaborator; each
of its entry points used by src becomes one abstract output token. -/
inductive Out
  | room (id : ID)
  | roomBrief (id : ID)
  | thingDesc (id : ID)
  | playerDesc (id : ID)
  | playerInv (id : ID)
  | readText (id : ID)
  | act (text : String)
  | info (text : String)
  | printed (text : String)
  | errText (text : String)
  | debugList
  | debugDump (id : ID)
  deriving DecidableEq, Repr

/-- First-match lookup in an association list; models indexing a HashMap. -/
def alook {κ β : Type} [DecidableEq κ] (l : List (κ × β)) (k : κ) : Option β :=
  match l with
  | [] => none
  | p :: rest => if p.1 = k then some p.2 else alook rest k

/-- Value update at a key in an association list; models get_mut on a map
followed by a write (a no-op when the key is absent). -/
def amodify {κ β : Type} [DecidableEq κ] (l : List (κ × β)) (k : κ) (f : β → β) :
    List (κ × β) :=
  match l with
  | [] => []
  | p :: rest => (if p.1 = k then (p.1, f p.2) else p) :: amodify rest k f

/-- Boolean membership by decidable equality; models HashSet contains. -/
def bmem {α : Type} [DecidableEq α] (a : α) (l : List α) : Bool := decide (a ∈ l)

/-- Room component: display name plus the per-direction link map
(room_component.rs, as used by src/phys.rs follow_link and
src/world_builder.rs RoomBuilder). -/
structure RoomComponent where
  name : String
  links : List (Dir × LinkDest)
  deriving DecidableEq, Repr

/-- Thing component: display name plus the noun used for command matching
(thing_component.rs, as used by src/player_control.rs find_noun). -/
structure ThingComponent where
  name : String
  noun : String
  deriving DecidableEq, Repr

/-- Modelled from the spec: the rule component of the missing
rule_component.rs, with the fields the files under src use: a predicate, the
bound event, the guard marker, and the action script
(src/rule_monitor.rs, src/world_builder.rs). -/
structure RuleComponent where
  predicate : Pred
  event : Event
  is_guard : Bool
  script : List Action
  deriving DecidableEq, Repr

/-- Modelled from the spec: the World component store of the missing
world.rs.  Field shapes follow exactly the accessors exercised by the files
under src: tags (bidirectional via lookup), pid, clock, locations (the id
field of LocationComponent), inventories (sets of contained IDs), flag_sets,
rooms, things, rules, and proses (only the set of prose kinds present
matters to the core).  The player table and the custom command handler list
(opaque closures, external collaborators per the spec) are omitted. -/
structure World where
  next_id : ID
  pid : ID
  clock : Nat
  tags : List (ID × String)
  locations : List (ID × ID)
  inventories : List (ID × List ID)
  flag_sets : List (ID × List Flag)
  rooms : List (ID × RoomComponent)
  things : List (ID × ThingComponent)
  rules : List (ID × RuleComponent)
  proses : List (ID × List ProseType)
  deriving DecidableEq, Repr

/-- The reserved LIMBO entity, always allocated first at identity 0
(src/world_builder.rs asserts limbo == 0). -/
def LIMBO : ID := 0

/-- Modelled from the spec: World::has_flag of the missing world.rs; an
entity without a flag-set component has no flags. -/
def has_flag (w : World) (id : ID) (f : Flag) : Bool :=
  bmem f ((alook w.flag_sets id).getD [])

/-- Evaluation of embedded rule predicates against the current world. -/
def evalPred (w : World) : Pred → Bool
  | .always => true
  | .never => false
  | .hasFlagP id f => has_flag w id f
  | .lacksFlagP id f => !(has_flag w id f)
  | .clockIs n => decide (w.clock = n)

/-- Whether the entity carries a flag-set component at all (its absence makes
the flag accessors a precondition failure in the source). -/
def has_flag_set (w : World) (id : ID) : Bool := (alook w.flag_sets id).isSome

/-- Modelled from the spec: World::set_flag of the missing world.rs (HashSet
insert into the entity's flag set; the source panics when the component is
absent, the model leaves the world unchanged). -/
def set_flag (w : World) (id : ID) (f : Flag) : World :=
  { w with flag_sets := amodify w.flag_sets id (fun fs => if f ∈ fs then fs else f :: fs) }

/-- Modelled from the spec: World::unset_flag of the missing world.rs
(HashSet remove). -/
def unset_flag (w : World) (id : ID) (f : Flag) : World :=
  { w with flag_sets := amodify w.flag_sets id (fun fs => fs.filter (fun g => decide (g ≠ f))) }

/-- Modelled from the spec: World::lookup_id of the missing world.rs, the
tag-to-identity direction of the registry (used by src/player_control.rs
parse_id). -/
def lookup_id (w : World) (tag : String) : Option ID :=
  (w.tags.find? (fun p => decide (p.2 = tag))).map (fun p => p.1)

/-- Modelled from the spec: World::is_room of the missing world.rs in the
component layout of the newer source files (an entity with a room
component). -/
def is_room (w : World) (id : ID) : Bool := (alook w.rooms id).isSome

/-- Modelled from the spec: World::is_thing of the missing world.rs. -/
def is_thing (w : World) (id : ID) : Bool := (alook w.things id).isSome

/-!  The physical subsystem, translated from src/phys.rs. -/

/-- An entity's location (phys.rs loc; the source asserts the component is
present and panics otherwise, the model totalizes with default 0). -/
def loc (w : World) (thing : ID) : ID := (alook w.locations thing).getD 0

/-- Whether the entity has a location component (world.has_location). -/
def has_location (w : World) (thing : ID) : Bool := (alook w.locations thing).isSome

/-- Whether the entity has an inventory component (world.has_inventory). -/
def has_inventory (w : World) (c : ID) : Bool := (alook w.inventories c).isSome

/-- Contents of a container: a value copy of its inventory (phys.rs
contents; defaults to empty where the source would panic). -/
def contents (w : World) (container : ID) : List ID :=
  (alook w.inventories container).getD []

/-- Whether the container owns the thing (phys.rs owns). -/
def owns (w : World) (container thing : ID) : Bool := bmem thing (contents w container)

/-- Follow a link of a room in a direction (phys.rs follow_link). -/
def follow_link (w : World) (l : ID) (dir : Dir) : Option LinkDest :=
  (alook w.rooms l).bind (fun rc => alook rc.links dir)

/-- Remove a thing from a container's inventory (the remove half of the
bookkeeping in phys.rs take_out and put_in). -/
def inv_remove (w : World) (container thing : ID) : World :=
  { w with
    inventories := amodify w.inventories container (fun inv => inv.filter (fun x => decide (x ≠ thing))) }

/-- Insert a thing into a container's inventory (the add half of the
bookkeeping in phys.rs take_out and put_in; HashSet insert). -/
def inv_add (w : World) (container thing : ID) : World :=
  { w with
    inventories := amodify w.inventories container (fun inv => if thing ∈ inv then inv else thing :: inv) }

/-- Overwrite the id field of a thing's location component. -/
def set_loc (w : World) (thing dest : ID) : World :=
  { w with locations := amodify w.locations thing (fun _ => dest) }

/-- Removes the thing from its current location and puts it in LIMBO
(phys.rs take_out, line for line: remove from the current container, point
the location at LIMBO, insert into the LIMBO inventory). -/
def take_out (w : World) (thing : ID) : World :=
  let container := loc w thing
  let w1 := inv_remove w container thing
  let w2 := set_loc w1 thing LIMBO
  inv_add w2 LIMBO thing

/-- Moves the thing into the container (phys.rs put_in: remove from the
current container, point the location at the new container, insert into its
inventory). -/
def put_in (w : World) (thing container : ID) : World :=
  let there := loc w thing
  let w1 := inv_remove w there thing
  let w2 := set_loc w1 thing container
  inv_add w2 container thing

/-- Scenery contents of a container (phys.rs scenery). -/
def scenery (w : World) (owner : ID) : List ID :=
  (contents w owner).filter (fun id => has_flag w id .scenery)

/-- Immovable contents of a container (phys.rs immovable). -/
def immovable (w : World) (owner : ID) : List ID :=
  (contents w owner).filter (fun id => has_flag w id .immovable)

/-- Removable contents of a container: everything not flagged Immovable
(phys.rs removable). -/
def removable (w : World) (l : ID) : List ID :=
  (contents w l).filter (fun id => !(has_flag w id .immovable))

/-- Things the viewer could drop (phys.rs droppable). -/
def droppable (w : World) (viewer : ID) : List ID := removable w viewer

/-- Things in the viewer's location that could be taken (phys.rs
gettable). -/
def gettable (w : World) (viewer : ID) : List ID :=
  (contents w (loc w viewer)).filter (fun id => !(has_flag w id .immovable))

/-- The first half of phys.rs visible: anything owned by the viewer. -/
def vis_own (w : World) (viewer : ID) : List ID :=
  if has_inventory w viewer then contents w viewer else []

/-- The second half of phys.rs visible: anything in the viewer's location. -/
def vis_loc (w : World) (viewer : ID) : List ID :=
  if has_location w viewer then contents w (loc w viewer) else []

/-- Everything visible to the viewer (phys.rs visible): the viewer's own
inventory when present, joined with the contents of the viewer's location
when present.  BTreeSet append is a set union; the list model appends the
second operand with the duplicates filtered out. -/
def visible (w : World) (viewer : ID) : List ID :=
  vis_own w viewer ++ (vis_loc w viewer).filter (fun x => decide (x ∉ vis_own w viewer))

/-!  Script execution (modelled from the spec: script.rs is missing; the
spec describes a script as an ordered list of primitive actions applied to
the world in list order).  Print actions go to the output transcript; kill
sets the Dead flag, revive clears it, forget moves the thing to LIMBO. -/

/-- Apply one script action to a world and an output transcript. -/
def execAction (wo : World × List Out) (a : Action) : World × List Out :=
  match a with
  | .print t => (wo.1, wo.2 ++ [Out.printed t])
  | .setFlag id f => (set_flag wo.1 id f, wo.2)
  | .unsetFlag id f => (unset_flag wo.1 id f, wo.2)
  | .forget t => (take_out wo.1 t, wo.2)
  | .kill id => (set_flag wo.1 id .dead, wo.2)
  | .revive id => (unset_flag wo.1 id .dead, wo.2)

/-- Modelled from the spec: Script::execute of the missing script.rs;
actions are applied synchronously, in list order. -/
def execScript (s : List Action) (w : World) (out : List Out) : World × List Out :=
  s.foldl execAction (w, out)

/-!  The rule systems.  src/rule_monitor.rs is present and is translated
here; the event-aware allows and fire_event of the newer rule.rs are missing
and are modelled from the spec, mirroring the in-source rule_monitor
structure for firing. -/

/-- The result of running rules or a high-level guarded operation: the new
world, the rendered output, and the IDs of the rules whose actions were
executed, in execution order. -/
structure RuleResult where
  world : World
  output : List Out
  fired : List ID
  deriving DecidableEq, Repr

/-- Rule eligibility, from src/rule_monitor.rs line 13: a rule is kept
unless it has both the FireOnce flag and the Fired flag. -/
def eligible (w : World) (id : ID) : Bool :=
  !(has_flag w id .fireOnce) || !(has_flag w id .fired)

/-- The key list of the rule table, in table order. -/
def ruleKeys (w : World) : List ID := w.rules.map (fun p => p.1)

/-- The rule IDs collected by the rule monitor system: every key of the rule
table that is eligible (src/rule_monitor.rs lines 9 to 14). -/
def sysIds (w : World) : List ID := (ruleKeys w).filter (fun id => eligible w id)

/-- One iteration of the rule loop (src/rule_monitor.rs lines 16 to 21): if
the rule's predicate holds in the current world, execute its script
(fire_rule) and then set its Fired flag. -/
def runRule (acc : RuleResult) (id : ID) : RuleResult :=
  match alook acc.world.rules id with
  | some rc =>
    if evalPred acc.world rc.predicate then
      let wo := execScript rc.script acc.world acc.output
      { world := set_flag wo.1 id .fired, output := wo.2, fired := acc.fired ++ [id] }
    else acc
  | none => acc

/-- The rule monitor system (src/rule_monitor.rs system): collect the
eligible rule IDs up front, then fire each whose predicate holds. -/
def rmSystem (w : World) : RuleResult :=
  (sysIds w).foldl runRule { world := w, output := [], fired := [] }

/-- Modelled from the spec: the trigger-collection filter of the missing
rule.rs fire_event: non-guard rules bound to the event that are still
eligible. -/
def eventIds (w : World) (ev : Event) : List ID :=
  ((w.rules.filter (fun p => !p.2.is_guard && decide (p.2.event = ev))).map (fun p => p.1)).filter
    (fun id => eligible w id)

/-- Modelled from the spec: rule::fire_event of the missing rule.rs.
Triggers bound to the completed event fire in registration order, mirroring
the in-source rule monitor loop. -/
def fire_event (w : World) (ev : Event) : RuleResult :=
  (eventIds w ev).foldl runRule { world := w, output := [], fired := [] }

/-- Modelled from the spec: rule::allows of the missing rule.rs.  The spec
states that guard predicates are a logical AND across all guards attached to
the event, that a single false is sufficient to deny, and that the absence
of any guard means default-allow; denial performs no world mutation. -/
def allows (w : World) (ev : Event) : Bool :=
  w.rules.all (fun p => !(p.2.is_guard && decide (p.2.event = ev)) || evalPred w p.2.predicate)

/-!  High-level guarded operations, translated from src/phys.rs.  Each
returns Ok(()) in the source (the error path of PhysResult is never used),
so the model returns the RuleResult directly. -/

/-- The player tries to enter the room (phys.rs enter_room): when allowed,
move the player, render the full description on a first visit (Seen flag
unset) and the brief one on a revisit, set the Seen flag, then fire the
EnterRoom triggers. -/
def enter_room (w : World) (pid room : ID) : RuleResult :=
  if allows w (.enterRoom pid room) then
    let w1 := put_in w pid room
    let out1 := if !(has_flag w1 pid (.seen room)) then [Out.room room] else [Out.roomBrief room]
    let w2 := set_flag w1 pid (.seen room)
    let r := fire_event w2 (.enterRoom pid room)
    { world := r.world, output := out1 ++ r.output, fired := r.fired }
  else { world := w, output := [], fired := [] }

/-- The player gets the thing (phys.rs get_thing): when allowed, move the
thing into the player's inventory, render Taken, fire the GetThing
triggers. -/
def get_thing (w : World) (pid thing : ID) : RuleResult :=
  if allows w (.getThing pid thing) then
    let w1 := put_in w thing pid
    let r := fire_event w1 (.getThing pid thing)
    { world := r.world, output := Out.act "Taken." :: r.output, fired := r.fired }
  else { world := w, output := [], fired := [] }

/-- The player reads the thing (phys.rs read_thing): when allowed, render
its book prose and fire the ReadThing triggers; no movement. -/
def read_thing (w : World) (pid thing : ID) : RuleResult :=
  if allows w (.readThing pid thing) then
    let r := fire_event w (.readThing pid thing)
    { world := r.world, output := Out.readText thing :: r.output, fired := r.fired }
  else { world := w, output := [], fired := [] }

/-- The three high-level guarded operations of phys.rs, as one type, for
statements that quantify over them. -/
inductive HighOp
  | enterR (room : ID)
  | getT (thing : ID)
  | readT (thing : ID)
  deriving DecidableEq, Repr

/-- The event a high-level operation is guarded by. -/
def opEvent (pid : ID) : HighOp → Event
  | .enterR room => .enterRoom pid room
  | .getT thing => .getThing pid thing
  | .readT thing => .readThing pid thing

/-- Dispatch a high-level operation. -/
def runHigh (w : World) (pid : ID) : HighOp → RuleResult
  | .enterR room => enter_room w pid room
  | .getT thing => get_thing w pid thing
  | .readT thing => read_thing w pid thing

/-!  Operation sequences over the world, for lifetime statements: the rule
monitor tick, the three guarded operations, and the two primitive
mutators. -/

/-- One world-mutating operation of the core. -/
inductive WorldOp
  | tick
  | enterRoomOp (pid room : ID)
  | getThingOp (pid thing : ID)
  | readThingOp (pid thing : ID)
  | putInOp (thing container : ID)
  | takeOutOp (thing : ID)
  deriving DecidableEq, Repr

/-- Apply one operation. -/
def stepOp (w : World) : WorldOp → RuleResult
  | .tick => rmSystem w
  | .enterRoomOp pid room => enter_room w pid room
  | .getThingOp pid thing => get_thing w pid thing
  | .readThingOp pid thing => read_thing w pid thing
  | .putInOp thing container => { world := put_in w thing container, output := [], fired := [] }
  | .takeOutOp thing => { world := take_out w thing, output := [], fired := [] }

/-- Apply a sequence of operations, accumulating the executed-rule list. -/
def runOps (w : World) : List WorldOp → World × List ID
  | [] => (w, [])
  | op :: rest =>
    let r := stepOp w op
    let tail := runOps r.world rest
    (tail.1, r.fired ++ tail.2)

/-!  The player control system, translated from src/player_control.rs.  The
command resolver (command.rs) is an external collaborator per the spec, so
it is passed in as a parameter; custom command handlers (opaque scenario
closures, external collaborators per the spec) are omitted.  Error message
strings are paraphrased without apostrophes; no claim depends on the exact
wording. -/

/-- A resolved command (command.rs Command): the debug marker and the word
tokens. -/
structure Command where
  is_debug : Bool
  words : List String
  deriving DecidableEq, Repr

/-- The external command resolver: given the world and the raw input, either
a structured command or a human-readable error string. -/
abbrev ParseFn := World → String → Except String Command

/-- Status results of command handlers (player_control.rs Status).  The
source has Normal, Restart and Undo; quitSt stands for the quit command,
whose handler calls process exit and never returns, so that the embedding
stays total. -/
inductive Status
  | normal
  | restartSt
  | undoSt
  | quitSt
  deriving DecidableEq, Repr

/-- Player context (player_control.rs Player): ID and initial location. -/
structure Player where
  id : ID
  loc : ID
  deriving DecidableEq, Repr

/-- Modelled from the spec: the Game aggregate holding the live world and
the undo bookkeeping (its module is missing from src).  The spec says the
full World value is deep-copied and pushed as the undo point and that undo
pops the most recent snapshot and replaces the live World with it wholesale;
restart discards all history and rebuilds the initial scenario, kept here as
the initial field. -/
structure Game where
  world : World
  undoStack : List World
  initial : World
  deriving DecidableEq, Repr

/-- Modelled from the spec: Game::save_for_undo pushes a snapshot. -/
def save_for_undo (g : Game) (w : World) : Game :=
  { g with undoStack := w :: g.undoStack }

/-- Modelled from the spec: Game::has_undo. -/
def has_undo (g : Game) : Bool := !g.undoStack.isEmpty

/-- Modelled from the spec: Game::undo pops the most recent snapshot and
replaces the live World with it wholesale. -/
def game_undo (g : Game) : Game :=
  match g.undoStack with
  | w :: rest => { g with world := w, undoStack := rest }
  | [] => g

/-- Modelled from the spec: Game::restart discards all history and rebuilds
the initial scenario from scratch. -/
def game_restart (g : Game) : Game :=
  { g with world := g.initial, undoStack := [] }

/-- Modelled from the spec: visual::can_read of the missing visual.rs; a
thing can be read when it has prose of the Book kind. -/
def can_read (w : World) (thing : ID) : Bool :=
  ((alook w.proses thing).map (fun ts => bmem ProseType.book ts)).getD false

/-- Find a noun among the given things (player_control.rs find_noun): the
first ID whose thing component matches the noun.  The source indexes the
thing table and would panic on an entity without a thing component; the
model treats such an entity as a non-match. -/
def find_noun (w : World) (ids : List ID) (noun : String) : Option ID :=
  ids.find? (fun id => ((alook w.things id).map (fun tc => decide (tc.noun = noun))).getD false)

/-- The result of one command handler: a status or an error, the possibly
updated world, and the rendered output. -/
abbrev CmdRes := Except String Status × World × List Out

/-- Display help (player_control.rs cmd_help). -/
def cmd_help (w : World) : CmdRes :=
  (.ok .normal, w, [Out.info "You have got the usual commands."])

/-- Move the player in a direction (player_control.rs cmd_go). -/
def cmd_go (w : World) (player : Player) (dir : Dir) : CmdRes :=
  match follow_link w player.loc dir with
  | some (.room dest) =>
    let r := enter_room w player.id dest
    (.ok .normal, r.world, r.output)
  | some (.deadEnd prose) => (.ok .normal, w, [Out.info prose])
  | none => (.error "You cannot go that way.", w, [])

/-- Re-describe the current location (player_control.rs cmd_look). -/
def cmd_look (w : World) (player : Player) : CmdRes :=
  (.ok .normal, w, [Out.room player.loc])

/-- Display the player's inventory (player_control.rs cmd_inventory). -/
def cmd_inventory (w : World) (player : Player) : CmdRes :=
  (.ok .normal, w, [Out.playerInv player.id])

/-- Describe a visible thing (player_control.rs cmd_examine). -/
def cmd_examine (w : World) (player : Player) (name : String) : CmdRes :=
  match find_noun w (visible w player.id) name with
  | some thing =>
    if thing = player.id then (.ok .normal, w, [Out.playerDesc player.id])
    else (.ok .normal, w, [Out.thingDesc thing])
  | none => (.error "You do not see any such thing.", w, [])

/-- Read a visible thing (player_control.rs cmd_read). -/
def cmd_read (w : World) (player : Player) (name : String) : CmdRes :=
  match find_noun w (visible w player.id) name with
  | some thing =>
    if !(can_read w thing) then (.error "You cannot read that.", w, [])
    else if owns w player.id thing || has_flag w thing .immovable then
      let r := read_thing w player.id thing
      (.ok .normal, r.world, r.output)
    else (.error "You do not have it.", w, [])
  | none => (.error "You do not see any such thing.", w, [])

/-- Get a thing from the location (player_control.rs cmd_get): reject a
thing already held, then an immovable thing, then get a gettable match. -/
def cmd_get (w : World) (player : Player) (noun : String) : CmdRes :=
  if (find_noun w (contents w player.id) noun).isSome then
    (.error "You already have that.", w, [])
  else if (find_noun w (immovable w player.loc) noun).isSome then
    (.error "You cannot take that!", w, [])
  else
    match find_noun w (gettable w player.id) noun with
    | some thing =>
      let r := get_thing w player.id thing
      (.ok .normal, r.world, r.output)
    | none => (.error "You do not see any such thing.", w, [])

/-- Drop a carried thing (player_control.rs cmd_drop). -/
def cmd_drop (w : World) (player : Player) (noun : String) : CmdRes :=
  match find_noun w (droppable w player.id) noun with
  | some thing =>
    let w2 := put_in w thing player.loc
    (.ok .normal, w2, [Out.act "Dropped."])
  | none =>
    if (find_noun w (scenery w player.id) noun).isSome then
      (.error "You cannot drop that!", w, [])
    else if (find_noun w (visible w player.id) noun).isSome then
      (.error "You are not carrying that.", w, [])
    else (.error "You do not see any such thing.", w, [])

/-- Undo the last command (player_control.rs cmd_undo): only reports the
status; the system performs the restore. -/
def cmd_undo (g : Game) : Except String Status × List Out :=
  if has_undo g then (.ok .undoSt, [Out.act "Undone."])
  else (.error "Nothing to undo.", [])

/-- Parse a token as an entity tag or numeric ID (player_control.rs
parse_id).  The numeric-parse error messages are collapsed to a constant
string (the source formats the token into them). -/
def parse_id (w : World) (token : String) : Except String ID :=
  match lookup_id w token with
  | some id => .ok id
  | none =>
    match token.toNat? with
    | some id => if (alook w.tags id).isSome then .ok id else .error "Not an ID."
    | none => .error "Not an ID."

/-- Handle a debugging command (player_control.rs handle_debug_command and
the cmd_debug functions).  The list and dump commands only render; debug
look and examine render when the entity has the right shape; debug go moves
the player with the primitive mutator. -/
def handle_debug_command (w : World) (player : Player) (words : List String) : CmdRes :=
  match words with
  | ["list"] => (.ok .normal, w, [Out.debugList])
  | ["dump", idArg] =>
    match parse_id w idArg with
    | .ok id => (.ok .normal, w, [Out.debugDump id])
    | .error e => (.error e, w, [])
  | ["look", idArg] =>
    match parse_id w idArg with
    | .ok id =>
      if is_room w id then (.ok .normal, w, [Out.room id])
      else (.error "Entity is not a room.", w, [])
    | .error e => (.error e, w, [])
  | ["examine", idArg] =>
    match parse_id w idArg with
    | .ok id =>
      if is_thing w id then (.ok .normal, w, [Out.thingDesc id])
      else (.error "Entity is not a thing.", w, [])
    | .error e => (.error e, w, [])
  | ["go", idArg] =>
    match parse_id w idArg with
    | .ok l =>
      if is_room w l then
        let w2 := put_in w player.id l
        (.ok .normal, w2, [Out.room l])
      else (.error "Entity is not a room.", w, [])
    | .error e => (.error e, w, [])
  | _ => (.error "I do not understand.", w, [])

/-- Lift a world-level command result back onto the game aggregate (the
source mutates game.world in place; the embedding rebuilds the game). -/
def wrap (g : Game) (r : CmdRes) : Except String Status × Game × List Out :=
  (r.1, { g with world := r.2.1 }, r.2.2)

/-- Handle a non-debug command (player_control.rs handle_normal_command,
with the custom handler loop omitted): dispatch the word tokens to the
built-in commands.  The word patterns of the source match are rendered as a
structural match on the token count with word comparisons, preserving the
dispatch exactly. -/
def handle_normal_command (g : Game) (player : Player) (words : List String) :
    Except String Status × Game × List Out :=
  match words with
  | [w1] =>
    if w1 = "north" then wrap g (cmd_go g.world player .north)
    else if w1 = "south" then wrap g (cmd_go g.world player .south)
    else if w1 = "east" then wrap g (cmd_go g.world player .east)
    else if w1 = "west" then wrap g (cmd_go g.world player .west)
    else if w1 = "help" then wrap g (cmd_help g.world)
    else if w1 = "look" then wrap g (cmd_look g.world player)
    else if w1 = "inventory" then wrap g (cmd_inventory g.world player)
    else if w1 = "undo" then ((cmd_undo g).1, g, (cmd_undo g).2)
    else if w1 = "restart" then (.ok .restartSt, g, [Out.act "Restarting..."])
    else if w1 = "quit" then (.ok .quitSt, g, [Out.act "Bye, then."])
    else (.error "I do not understand.", g, [])
  | [w1, w2] =>
    if w1 = "go" then
      if w2 = "north" then wrap g (cmd_go g.world player .north)
      else if w2 = "south" then wrap g (cmd_go g.world player .south)
      else if w2 = "east" then wrap g (cmd_go g.world player .east)
      else if w2 = "west" then wrap g (cmd_go g.world player .west)
      else (.error "I do not understand.", g, [])
    else if w1 = "examine" then wrap g (cmd_examine g.world player w2)
    else if w1 = "read" then wrap g (cmd_read g.world player w2)
    else if w1 = "get" then wrap g (cmd_get g.world player w2)
    else if w1 = "drop" then wrap g (cmd_drop g.world player w2)
    else (.error "I do not understand.", g, [])
  | [w1, w2, w3] =>
    if w1 = "pick" then
      if w2 = "up" then wrap g (cmd_get g.world player w3)
      else (.error "I do not understand.", g, [])
    else (.error "I do not understand.", g, [])
  | _ => (.error "I do not understand.", g, [])

/-- Parse the input and dispatch it (player_control.rs handle_input). -/
def handle_input (parse : ParseFn) (g : Game) (player : Player) (input : String) :
    Except String Status × Game × List Out :=
  match parse g.world input with
  | .error e => (.error e, g, [])
  | .ok cmd =>
    if cmd.is_debug then wrap g (handle_debug_command g.world player cmd.words)
    else handle_normal_command g player cmd.words

/-- The player context the system builds (player_control.rs system lines 46
to 49). -/
def mkPlayer (g : Game) : Player :=
  { id := g.world.pid, loc := loc g.world g.world.pid }

/-- The dispatch on the handler result (the match at the end of
player_control.rs system): on an error render it, on Normal push the
snapshot, on Restart rebuild, on Undo restore.  Quit stands for process
exit and leaves the game as is. -/
def pcFinish (undo_info : World) (r : Except String Status × Game × List Out) :
    Game × List Out :=
  match r.1 with
  | .error msg => (r.2.1, r.2.2 ++ [Out.errText msg])
  | .ok .normal => (save_for_undo r.2.1 undo_info, r.2.2)
  | .ok .restartSt => (game_restart r.2.1, r.2.2)
  | .ok .undoSt => (game_undo r.2.1, r.2.2)
  | .ok .quitSt => (r.2.1, r.2.2)

/-- The player control system (player_control.rs system): snapshot the world
for undo (the first statement of the source system; handling is pure here,
so the snapshot equals the pre-handling world), build the player context,
handle the input, then dispatch the result. -/
def pcSystem (parse : ParseFn) (g : Game) (input : String) : Game × List Out :=
  pcFinish g.world (handle_input parse g (mkPlayer g) input)

/-- One iteration of the game loop (src/lib.rs run): run the player control
system, then the per-turn rule system, then increment the clock
unconditionally. -/
def runStep (parse : ParseFn) (g : Game) (input : String) : Game × List Out :=
  ({ (pcSystem parse g input).1 with
      world :=
        { (rmSystem (pcSystem parse g input).1.world).world with
            clock := (rmSystem (pcSystem parse g input).1.world).world.clock + 1 } },
   (pcSystem parse g input).2 ++ (rmSystem (pcSystem parse g input).1.world).output)

/-!  Invariants and side conditions. -/

/-- Invariant I1 of the spec: every entity with a location component is in
the inventory of its location, and of no other container. -/
def I1 (w : World) : Prop :=
  ∀ e c, alook w.locations e = some c →
    e ∈ contents w c ∧ ∀ c2, e ∈ contents w c2 → c2 = c

/-- Every stored inventory is duplicate-free (the BTreeSet representation
guarantees this in the source; the list model states it). -/
@[reducible] def InvNodup (w : World) : Prop := ∀ p ∈ w.inventories, p.2.Nodup

/-- Whether a script action clears the given flag of the given entity: an
explicit unset-flag action, or a revive action when the flag is Dead. -/
@[reducible] def ClearsFlag (a : Action) (i : ID) (g : Flag) : Prop :=
  a = Action.unsetFlag i g ∨ (a = Action.revive i ∧ g = Flag.dead)

/-- Whether a script action sets the given flag of the given entity: an
explicit set-flag action, or a kill action when the flag is Dead. -/
@[reducible] def SetsFlag (a : Action) (i : ID) (g : Flag) : Prop :=
  a = Action.setFlag i g ∨ (a = Action.kill i ∧ g = Flag.dead)

/-- No action of the script clears the given flag of the given entity. -/
@[reducible] def ScriptKeepsFlag (s : List Action) (i : ID) (g : Flag) : Prop :=
  ∀ a ∈ s, ¬ ClearsFlag a i g

/-- No rule script of the world clears the given flag of the given
entity. -/
@[reducible] def RulesKeepFlag (w : World) (i : ID) (g : Flag) : Prop :=
  ∀ p ∈ w.rules, ScriptKeepsFlag p.2.script i g

/-- No rule script of the world sets the given flag of the given entity. -/
@[reducible] def RulesAvoidFlag (w : World) (i : ID) (g : Flag) : Prop :=
  ∀ p ∈ w.rules, ∀ a ∈ p.2.script, ¬ SetsFlag a i g

/-- The rule table keys are duplicate-free (a HashMap guarantees this in
the source; the association-list model states it). -/
@[reducible] def RuleKeysNodup (w : World) : Prop := (ruleKeys w).Nodup

/-- The protection a once-only rule needs from scenario scripts: no rule
script clears its Fired or its FireOnce flag. -/
@[reducible] def OnceProtected (w : World) (r : ID) : Prop :=
  RulesKeepFlag w r .fired ∧ RulesKeepFlag w r .fireOnce

/-!  Primitive-mutator sequences, for the I1 round-trip statement. -/

/-- One primitive mutator call of phys.rs. -/
inductive PhysOp
  | putInP (thing container : ID)
  | takeOutP (thing : ID)
  deriving DecidableEq, Repr

/-- Apply one primitive mutator. -/
def applyPhys (w : World) : PhysOp → World
  | .putInP thing container => put_in w thing container
  | .takeOutP thing => take_out w thing

/-- Apply a sequence of primitive mutators, first call first. -/
def applyPhysList (w : World) : List PhysOp → World
  | [] => w
  | op :: rest => applyPhysList (applyPhys w op) rest

/-- The assertion the source makes before a primitive mutator runs: put_in
unwraps the target container's inventory component (take_out unwraps the
LIMBO inventory, stated once globally). -/
def PhysOpOk (w : World) : PhysOp → Prop
  | .putInP _ container => has_inventory w container = true
  | .takeOutP _ => True

/-!  Concrete worlds and games used by the closed witness and counterexample
statements. -/

/-- An empty world. -/
def w_empty : World :=
  { next_id := 0, pid := 1, clock := 0, tags := [], locations := [], inventories := [],
    flag_sets := [], rooms := [], things := [], rules := [], proses := [] }

/-- A world with one guard rule (entity 5) bound to GetThing(1, 2) whose
predicate always denies; thing 2 sits in container 3. -/
def w_guard : World :=
  { w_empty with
    next_id := 6,
    locations := [(2, 3)],
    inventories := [(0, []), (1, []), (3, [2])],
    rules := [(5, { predicate := .never, event := .getThing 1 2, is_guard := true, script := [] })] }

/-- A world satisfying I1: thing 2 in container 1, containers 0 (LIMBO), 1
and 4 present. -/
def w_phys : World :=
  { w_empty with
    next_id := 5,
    locations := [(2, 1)],
    inventories := [(0, []), (1, [2]), (4, [])] }

/-- A mutator sequence over w_phys: move 2 to 4, take it out, move it back
to 1. -/
def ops_phys : List PhysOp := [.putInP 2 4, .takeOutP 2, .putInP 2 1]

/-- A world where the once-only rule 10 has already fired, and rule 11
clears the Fired flag of rule 10 from a script. -/
def w_clear : World :=
  { w_empty with
    next_id := 12,
    flag_sets := [(10, [.fireOnce, .fired]), (11, [])],
    rules :=
      [(10, { predicate := .always, event := .turn, is_guard := false, script := [.print "ten"] }),
       (11, { predicate := .always, event := .turn, is_guard := false, script := [.unsetFlag 10 .fired] })] }

/-- A world with one protected once-only rule (entity 10). -/
def w_once : World :=
  { w_empty with
    next_id := 11,
    flag_sets := [(10, [.fireOnce])],
    rules := [(10, { predicate := .always, event := .turn, is_guard := false, script := [.print "story"] })] }

/-- A world for the rule monitor characterization: repeatable rule 10 and an
exhausted once-only rule 11. -/
def w_monitor : World :=
  { w_empty with
    next_id := 12,
    flag_sets := [(10, []), (11, [.fireOnce, .fired])],
    rules :=
      [(10, { predicate := .always, event := .turn, is_guard := false, script := [.print "again"] }),
       (11, { predicate := .always, event := .turn, is_guard := false, script := [.print "once"] })] }

/-- A world whose viewer (entity 1) has an inventory and a location: it
holds 4 and stands in room 3 next to 2 and 5. -/
def w_view : World :=
  { w_empty with
    next_id := 6,
    locations := [(1, 3)],
    inventories := [(1, [4]), (3, [2, 5])] }

/-- A world for entering room 7: the player (entity 1) has a flag set and
a location, and no rules are registered. -/
def w_enter : World :=
  { w_empty with
    next_id := 8,
    locations := [(1, 3)],
    inventories := [(3, [1]), (7, [])],
    flag_sets := [(1, [])] }

/-- A world where the player (entity 1, in room 3) can see the portable
thing 2, whose taking is denied by guard rule 5. -/
def w_deny : World :=
  { w_empty with
    next_id := 6,
    locations := [(1, 3), (2, 3)],
    inventories := [(0, []), (1, []), (3, [2])],
    flag_sets := [(1, []), (2, [])],
    things := [(2, { name := "gem", noun := "gem" })],
    rules := [(5, { predicate := .never, event := .getThing 1 2, is_guard := true, script := [] })] }

/-- The game wrapped around the empty world. -/
def g_empty : Game := { world := w_empty, undoStack := [], initial := w_empty }

/-- The game wrapped around the denial world. -/
def g_deny : Game := { world := w_deny, undoStack := [], initial := w_deny }

/-- A resolver that always yields the debug command list. -/
def parse_dbg : ParseFn := fun _ _ => .ok { is_debug := true, words := ["list"] }

/-- A resolver that always yields the look command. -/
def parse_look : ParseFn := fun _ _ => .ok { is_debug := false, words := ["look"] }

/-- A resolver that always yields the undo command. -/
def parse_undo_cmd : ParseFn := fun _ _ => .ok { is_debug := false, words := ["undo"] }

/-- A resolver that always yields an unknown one-word command. -/
def parse_unknown : ParseFn := fun _ _ => .ok { is_debug := false, words := ["xyzzy"] }

/-- A resolver that always fails to resolve. -/
def parse_fail : ParseFn := fun _ _ => .error "That makes no sense."

/-!  Association-list and membership lemmas. -/

theorem bmem_iff {α : Type} [DecidableEq α] (a : α) (l : List α) : bmem a l = true ↔ a ∈ l := by
  simp [bmem]

theorem bool_eq_of_iff {a b : Bool} (h : a = true ↔ b = true) : a = b := by
  cases a <;> cases b <;> simp_all

theorem alook_amodify_self {κ β : Type} [DecidableEq κ] (l : List (κ × β)) (k : κ) (f : β → β) :
    alook (amodify l k f) k = (alook l k).map f := by
  induction l with
  | nil => rfl
  | cons p rest ih =>
    by_cases hp : p.1 = k
    · simp [amodify, alook, hp]
    · simp [amodify, alook, hp, ih]

theorem alook_amodify_ne {κ β : Type} [DecidableEq κ] (l : List (κ × β)) (k : κ) (f : β → β)
    (k2 : κ) (h : k2 ≠ k) : alook (amodify l k f) k2 = alook l k2 := by
  induction l with
  | nil => rfl
  | cons p rest ih =>
    have hk : ¬(k = k2) := fun he => h he.symm
    by_cases hp : p.1 = k
    · have hp2 : ¬(p.1 = k2) := fun he => h (he.symm.trans hp)
      simp [amodify, alook, hp, hp2, hk, ih]
    · by_cases hq : p.1 = k2
      · simp [amodify, alook, hp, hq, h, ih]
      · simp [amodify, alook, hp, hq, ih]

theorem alook_amodify_isSome {κ β : Type} [DecidableEq κ] (l : List (κ × β)) (k : κ) (f : β → β)
    (k2 : κ) : (alook (amodify l k f) k2).isSome = (alook l k2).isSome := by
  by_cases h : k2 = k
  · subst h
    rw [alook_amodify_self]
    cases alook l k2 <;> rfl
  · rw [alook_amodify_ne l k f k2 h]

theorem alook_mem {κ β : Type} [DecidableEq κ] {l : List (κ × β)} {k : κ} {v : β}
    (h : alook l k = some v) : (k, v) ∈ l := by
  induction l with
  | nil => simp [alook] at h
  | cons p rest ih =>
    obtain ⟨a, b⟩ := p
    by_cases hp : a = k
    · subst hp
      simp [alook] at h
      subst h
      exact List.mem_cons_self _ _
    · simp [alook, hp] at h
      exact List.mem_cons_of_mem _ (ih h)

theorem find?_append_of_none {α : Type} {p : α → Bool} {l1 l2 : List α}
    (h : l1.find? p = none) : (l1 ++ l2).find? p = l2.find? p := by
  induction l1 with
  | nil => rfl
  | cons a rest ih =>
    by_cases hp : p a = true
    · rw [List.find?_cons_of_pos _ hp] at h
      simp at h
    · rw [List.find?_cons_of_neg _ hp] at h
      rw [List.cons_append, List.find?_cons_of_neg _ hp]
      exact ih h

/-!  Field-preservation facts for the primitive world updates. -/

theorem rules_set_flag (w : World) (i : ID) (f : Flag) : (set_flag w i f).rules = w.rules := rfl

theorem clock_set_flag (w : World) (i : ID) (f : Flag) : (set_flag w i f).clock = w.clock := rfl

theorem rules_unset_flag (w : World) (i : ID) (f : Flag) : (unset_flag w i f).rules = w.rules := rfl

theorem clock_unset_flag (w : World) (i : ID) (f : Flag) : (unset_flag w i f).clock = w.clock := rfl

theorem flag_sets_put_in (w : World) (t c : ID) : (put_in w t c).flag_sets = w.flag_sets := rfl

theorem rules_put_in (w : World) (t c : ID) : (put_in w t c).rules = w.rules := rfl

theorem clock_put_in (w : World) (t c : ID) : (put_in w t c).clock = w.clock := rfl

theorem flag_sets_take_out (w : World) (t : ID) : (take_out w t).flag_sets = w.flag_sets := rfl

theorem rules_take_out (w : World) (t : ID) : (take_out w t).rules = w.rules := rfl

theorem clock_take_out (w : World) (t : ID) : (take_out w t).clock = w.clock := rfl

theorem take_out_eq_put_in (w : World) (t : ID) : take_out w t = put_in w t LIMBO := rfl

/-!  Flag accessor characterizations. -/

theorem has_flag_congr {w1 w2 : World} (h : w1.flag_sets = w2.flag_sets) (i : ID) (g : Flag) :
    has_flag w1 i g = has_flag w2 i g := by
  unfold has_flag
  rw [h]

theorem has_flag_set_congr {w1 w2 : World} (h : w1.flag_sets = w2.flag_sets) (i : ID) :
    has_flag_set w1 i = has_flag_set w2 i := by
  unfold has_flag_set
  rw [h]

theorem flag_sets_set_flag (w : World) (i : ID) (f : Flag) :
    (set_flag w i f).flag_sets = amodify w.flag_sets i (fun fs => if f ∈ fs then fs else f :: fs) :=
  rfl

theorem flag_sets_unset_flag (w : World) (i : ID) (f : Flag) :
    (unset_flag w i f).flag_sets =
      amodify w.flag_sets i (fun fs => fs.filter (fun g => decide (g ≠ f))) :=
  rfl

theorem has_flag_set_flag (w : World) (i : ID) (f : Flag) (r : ID) (g : Flag) :
    has_flag (set_flag w i f) r g = true ↔
      (has_flag w r g = true ∨ (i = r ∧ f = g ∧ has_flag_set w r = true)) := by
  unfold has_flag has_flag_set
  rw [flag_sets_set_flag]
  by_cases h : i = r
  · subst h
    rw [show (amodify w.flag_sets i fun fs => if f ∈ fs then fs else f :: fs) = amodify w.flag_sets i fun fs => if f ∈ fs then fs else f :: fs from rfl]
    rw [alook_amodify_self w.flag_sets i _]
    cases hfs : alook w.flag_sets i with
    | none => simp [bmem]
    | some fs =>
      simp only [Option.map_some', Option.getD_some, Option.isSome_some, bmem_iff]
      by_cases hf : f ∈ fs
      · rw [if_pos hf]
        constructor
        · intro hg
          exact Or.inl hg
        · intro hg
          rcases hg with hg | ⟨_, hfg, _⟩
          · exact hg
          · exact hfg ▸ hf
      · rw [if_neg hf]
        rw [List.mem_cons]
        constructor
        · intro hg
          rcases hg with hg | hg
          · exact Or.inr ⟨trivial, hg.symm, trivial⟩
          · exact Or.inl hg
        · intro hg
          rcases hg with hg | ⟨_, hfg, _⟩
          · exact Or.inr hg
          · exact Or.inl hfg.symm
  · rw [alook_amodify_ne w.flag_sets i _ r (fun he => h he.symm)]
    constructor
    · intro hg
      exact Or.inl hg
    · intro hg
      rcases hg with hg | ⟨he, _, _⟩
      · exact hg
      · exact absurd he h

theorem has_flag_unset_flag (w : World) (i : ID) (f : Flag) (r : ID) (g : Flag) :
    has_flag (unset_flag w i f) r g = true ↔
      (has_flag w r g = true ∧ ¬(i = r ∧ f = g)) := by
  unfold has_flag
  rw [flag_sets_unset_flag]
  by_cases h : i = r
  · subst h
    rw [alook_amodify_self w.flag_sets i _]
    cases hfs : alook w.flag_sets i with
    | none => simp [bmem]
    | some fs =>
      simp only [Option.map_some', Option.getD_some, bmem_iff, List.mem_filter,
        decide_eq_true_eq]
      constructor
      · intro hg
        exact ⟨hg.1, fun hee => hg.2 hee.2.symm⟩
      · intro hg
        exact ⟨hg.1, fun hgf => hg.2 ⟨trivial, hgf.symm⟩⟩
  · rw [alook_amodify_ne w.flag_sets i _ r (fun he => h he.symm)]
    constructor
    · intro hg
      exact ⟨hg, fun hee => h hee.1⟩
    · intro hg
      exact hg.1

theorem has_flag_set_flag_keep {w : World} {r : ID} {g : Flag} (i : ID) (f : Flag)
    (hf : has_flag w r g = true) : has_flag (set_flag w i f) r g = true :=
  (has_flag_set_flag w i f r g).mpr (Or.inl hf)

theorem has_flag_set_flag_self {w : World} {i : ID} (f : Flag)
    (hfs : has_flag_set w i = true) : has_flag (set_flag w i f) i f = true :=
  (has_flag_set_flag w i f i f).mpr (Or.inr ⟨rfl, rfl, hfs⟩)

theorem has_flag_set_flag_ne {w : World} {i : ID} {f : Flag} {r : ID} {g : Flag}
    (h : ¬(i = r ∧ f = g)) : has_flag (set_flag w i f) r g = has_flag w r g := by
  apply bool_eq_of_iff
  rw [has_flag_set_flag]
  constructor
  · intro hx
    rcases hx with hx | ⟨h1, h2, _⟩
    · exact hx
    · exact absurd ⟨h1, h2⟩ h
  · exact Or.inl

theorem has_flag_unset_flag_ne {w : World} {i : ID} {f : Flag} {r : ID} {g : Flag}
    (h : ¬(i = r ∧ f = g)) : has_flag (unset_flag w i f) r g = has_flag w r g := by
  apply bool_eq_of_iff
  rw [has_flag_unset_flag]
  constructor
  · intro hx
    exact hx.1
  · intro hx
    exact ⟨hx, h⟩

theorem has_flag_set_set_flag (w : World) (i : ID) (f : Flag) (r : ID) :
    has_flag_set (set_flag w i f) r = has_flag_set w r := by
  unfold has_flag_set
  rw [flag_sets_set_flag]
  exact alook_amodify_isSome w.flag_sets i _ r

theorem has_flag_set_unset_flag (w : World) (i : ID) (f : Flag) (r : ID) :
    has_flag_set (unset_flag w i f) r = has_flag_set w r := by
  unfold has_flag_set
  rw [flag_sets_unset_flag]
  exact alook_amodify_isSome w.flag_sets i _ r

theorem has_flag_put_in (w : World) (t c : ID) (r : ID) (g : Flag) :
    has_flag (put_in w t c) r g = has_flag w r g :=
  has_flag_congr (flag_sets_put_in w t c) r g

theorem has_flag_take_out (w : World) (t : ID) (r : ID) (g : Flag) :
    has_flag (take_out w t) r g = has_flag w r g :=
  has_flag_congr (flag_sets_take_out w t) r g

theorem has_flag_set_put_in (w : World) (t c : ID) (r : ID) :
    has_flag_set (put_in w t c) r = has_flag_set w r :=
  has_flag_set_congr (flag_sets_put_in w t c) r

theorem has_flag_set_take_out (w : World) (t : ID) (r : ID) :
    has_flag_set (take_out w t) r = has_flag_set w r :=
  has_flag_set_congr (flag_sets_take_out w t) r

/-!  Inventory and location lemmas for the primitive mutators. -/

theorem contents_set_loc (w : World) (t d c : ID) : contents (set_loc w t d) c = contents w c :=
  rfl

theorem has_inventory_inv_add (w : World) (c t r : ID) :
    has_inventory (inv_add w c t) r = has_inventory w r := by
  unfold has_inventory inv_add
  exact alook_amodify_isSome w.inventories c _ r

theorem has_inventory_inv_remove (w : World) (c t r : ID) :
    has_inventory (inv_remove w c t) r = has_inventory w r := by
  unfold has_inventory inv_remove
  exact alook_amodify_isSome w.inventories c _ r

theorem has_inventory_put_in (w : World) (t c r : ID) :
    has_inventory (put_in w t c) r = has_inventory w r := by
  unfold put_in
  rw [has_inventory_inv_add]
  show has_inventory (inv_remove w (loc w t) t) r = has_inventory w r
  exact has_inventory_inv_remove w (loc w t) t r

theorem has_inventory_take_out (w : World) (t r : ID) :
    has_inventory (take_out w t) r = has_inventory w r := by
  rw [take_out_eq_put_in]
  exact has_inventory_put_in w t LIMBO r

theorem has_location_put_in (w : World) (t c e : ID) :
    has_location (put_in w t c) e = has_location w e := by
  unfold has_location put_in set_loc
  exact alook_amodify_isSome w.locations t _ e

theorem has_location_take_out (w : World) (t e : ID) :
    has_location (take_out w t) e = has_location w e := by
  rw [take_out_eq_put_in]
  exact has_location_put_in w t LIMBO e

theorem mem_contents_inv_remove (w : World) (c t : ID) (x d : ID) :
    x ∈ contents (inv_remove w c t) d ↔ (x ∈ contents w d ∧ ¬(d = c ∧ x = t)) := by
  unfold contents inv_remove
  by_cases hd : d = c
  · subst hd
    rw [alook_amodify_self w.inventories d _]
    cases ha : alook w.inventories d with
    | none => simp
    | some inv =>
      simp only [Option.map_some', Option.getD_some, List.mem_filter, decide_eq_true_eq]
      constructor
      · intro hx
        exact ⟨hx.1, fun hee => hx.2 hee.2⟩
      · intro hx
        exact ⟨hx.1, fun hxt => hx.2 ⟨trivial, hxt⟩⟩
  · rw [alook_amodify_ne w.inventories c _ d hd]
    constructor
    · intro hx
      exact ⟨hx, fun hee => hd hee.1⟩
    · intro hx
      exact hx.1

theorem mem_contents_inv_add (w : World) (c t : ID) (x d : ID) :
    x ∈ contents (inv_add w c t) d ↔
      (x ∈ contents w d ∨ (d = c ∧ x = t ∧ has_inventory w c = true)) := by
  unfold contents inv_add has_inventory
  by_cases hd : d = c
  · subst hd
    rw [alook_amodify_self w.inventories d _]
    cases ha : alook w.inventories d with
    | none => simp
    | some inv =>
      simp only [Option.map_some', Option.getD_some, Option.isSome_some]
      by_cases ht : t ∈ inv
      · rw [if_pos ht]
        constructor
        · intro hx
          exact Or.inl hx
        · intro hx
          rcases hx with hx | ⟨_, hxt, _⟩
          · exact hx
          · exact hxt ▸ ht
      · rw [if_neg ht]
        rw [List.mem_cons]
        constructor
        · intro hx
          rcases hx with hx | hx
          · exact Or.inr ⟨trivial, hx, trivial⟩
          · exact Or.inl hx
        · intro hx
          rcases hx with hx | ⟨_, hxt, _⟩
          · exact Or.inr hx
          · exact Or.inl hxt
  · rw [alook_amodify_ne w.inventories c _ d hd]
    constructor
    · intro hx
      exact Or.inl hx
    · intro hx
      rcases hx with hx | ⟨hee, _, _⟩
      · exact hx
      · exact absurd hee hd

theorem alook_locations_put_in_self (w : World) (t c : ID) :
    alook (put_in w t c).locations t = (alook w.locations t).map (fun _ => c) := by
  unfold put_in set_loc
  exact alook_amodify_self w.locations t _

theorem alook_locations_put_in_ne (w : World) (t c e : ID) (h : e ≠ t) :
    alook (put_in w t c).locations e = alook w.locations e := by
  unfold put_in set_loc
  exact alook_amodify_ne w.locations t _ e h

theorem mem_contents_put_in (w : World) (t c : ID) (x d : ID) :
    x ∈ contents (put_in w t c) d ↔
      ((x ∈ contents w d ∧ ¬(d = loc w t ∧ x = t)) ∨
       (d = c ∧ x = t ∧ has_inventory w c = true)) := by
  show x ∈ contents (inv_add (set_loc (inv_remove w (loc w t) t) t c) c t) d ↔ _
  rw [mem_contents_inv_add]
  rw [show contents (set_loc (inv_remove w (loc w t) t) t c) d =
      contents (inv_remove w (loc w t) t) d from rfl]
  rw [mem_contents_inv_remove]
  rw [show has_inventory (set_loc (inv_remove w (loc w t) t) t c) c =
      has_inventory (inv_remove w (loc w t) t) c from rfl]
  rw [has_inventory_inv_remove]

/-!  Preservation of the location and inventory invariant I1. -/

theorem I1_put_in {w : World} (h : I1 w) {c : ID} (hc : has_inventory w c = true) (t : ID) :
    I1 (put_in w t c) := by
  intro e c2 he
  by_cases het : e = t
  · subst het
    cases hl : alook w.locations e with
    | none =>
      rw [alook_locations_put_in_self, hl] at he
      simp at he
    | some L =>
      have hLL : loc w e = L := by simp [loc, hl]
      rw [alook_locations_put_in_self, hl] at he
      simp only [Option.map_some'] at he
      have hc2 : c2 = c := (Option.some.inj he).symm
      subst hc2
      constructor
      · rw [mem_contents_put_in]
        exact Or.inr ⟨rfl, rfl, hc⟩
      · intro c3 hmem
        rw [mem_contents_put_in] at hmem
        rcases hmem with ⟨hm, hnot⟩ | ⟨h1, _, _⟩
        · have h3 : c3 = L := (h e L hl).2 c3 hm
          exact absurd ⟨h3.trans hLL.symm, rfl⟩ hnot
        · exact h1
  · have he2 : alook w.locations e = some c2 := by
      rw [← alook_locations_put_in_ne w t c e het]
      exact he
    obtain ⟨hm, huniq⟩ := h e c2 he2
    constructor
    · rw [mem_contents_put_in]
      exact Or.inl ⟨hm, fun hx => het hx.2⟩
    · intro c3 hmem
      rw [mem_contents_put_in] at hmem
      rcases hmem with ⟨hm3, _⟩ | ⟨_, hxe, _⟩
      · exact huniq c3 hm3
      · exact absurd hxe het

theorem I1_take_out {w : World} (h : I1 w) (hL : has_inventory w LIMBO = true) (t : ID) :
    I1 (take_out w t) := by
  rw [take_out_eq_put_in]
  exact I1_put_in h hL t

theorem has_inventory_applyPhys (w : World) (op : PhysOp) (r : ID) :
    has_inventory (applyPhys w op) r = has_inventory w r := by
  cases op with
  | putInP t c => exact has_inventory_put_in w t c r
  | takeOutP t => exact has_inventory_take_out w t r

theorem I1_applyPhys {w : World} (h : I1 w) (hL : has_inventory w LIMBO = true) {op : PhysOp}
    (hop : PhysOpOk w op) : I1 (applyPhys w op) := by
  cases op with
  | putInP t c => exact I1_put_in h hop t
  | takeOutP t => exact I1_take_out h hL t

/-!  Everything needed about visible. -/

theorem contents_nodup {w : World} (hnd : InvNodup w) (c : ID) : (contents w c).Nodup := by
  unfold contents
  cases ha : alook w.inventories c with
  | none => exact List.nodup_nil
  | some inv => exact hnd (c, inv) (alook_mem ha)

theorem contents_mem_table {w : World} {x c : ID} (h : x ∈ contents w c) :
    ∃ inv, (c, inv) ∈ w.inventories ∧ x ∈ inv := by
  unfold contents at h
  cases ha : alook w.inventories c with
  | none =>
    rw [ha] at h
    simp at h
  | some inv =>
    rw [ha] at h
    exact ⟨inv, alook_mem ha, h⟩

/-!  Script execution lemmas. -/

theorem execScript_cons (a : Action) (rest : List Action) (w : World) (out : List Out) :
    execScript (a :: rest) w out =
      execScript rest (execAction (w, out) a).1 (execAction (w, out) a).2 := by
  unfold execScript
  rw [List.foldl_cons]

theorem execAction_rules (w : World) (out : List Out) (a : Action) :
    (execAction (w, out) a).1.rules = w.rules := by
  cases a <;> rfl

theorem execAction_clock (w : World) (out : List Out) (a : Action) :
    (execAction (w, out) a).1.clock = w.clock := by
  cases a <;> rfl

theorem execAction_flag_set (w : World) (out : List Out) (a : Action) (x : ID) :
    has_flag_set (execAction (w, out) a).1 x = has_flag_set w x := by
  cases a with
  | print t => rfl
  | setFlag i f => exact has_flag_set_set_flag w i f x
  | unsetFlag i f => exact has_flag_set_unset_flag w i f x
  | forget t => exact has_flag_set_take_out w t x
  | kill i => exact has_flag_set_set_flag w i .dead x
  | revive i => exact has_flag_set_unset_flag w i .dead x

theorem has_flag_unset_flag_false {w : World} {j : ID} {f : Flag} {i : ID} {g : Flag}
    (hf : has_flag w i g = false) : has_flag (unset_flag w j f) i g = false := by
  cases hx : has_flag (unset_flag w j f) i g
  · rfl
  · have := ((has_flag_unset_flag w j f i g).mp hx).1
    rw [hf] at this
    exact this.symm

theorem execAction_keep_flag {i : ID} {g : Flag} (w : World) (out : List Out) {a : Action}
    (ha : ¬ ClearsFlag a i g) (hf : has_flag w i g = true) :
    has_flag (execAction (w, out) a).1 i g = true := by
  cases a with
  | print t => exact hf
  | setFlag j f => exact has_flag_set_flag_keep j f hf
  | unsetFlag j f =>
    have hne : ¬(j = i ∧ f = g) := fun hee => ha (Or.inl (by rw [hee.1, hee.2]))
    rw [show (execAction (w, out) (Action.unsetFlag j f)).1 = unset_flag w j f from rfl]
    rw [has_flag_unset_flag_ne hne]
    exact hf
  | forget t =>
    rw [show (execAction (w, out) (Action.forget t)).1 = take_out w t from rfl]
    rw [has_flag_take_out]
    exact hf
  | kill j => exact has_flag_set_flag_keep j .dead hf
  | revive j =>
    have hne : ¬(j = i ∧ Flag.dead = g) := fun hee => ha (Or.inr ⟨by rw [hee.1], hee.2.symm⟩)
    rw [show (execAction (w, out) (Action.revive j)).1 = unset_flag w j .dead from rfl]
    rw [has_flag_unset_flag_ne hne]
    exact hf

theorem execAction_keep_notflag {i : ID} {g : Flag} (w : World) (out : List Out) {a : Action}
    (ha : ¬ SetsFlag a i g) (hf : has_flag w i g = false) :
    has_flag (execAction (w, out) a).1 i g = false := by
  cases a with
  | print t => exact hf
  | setFlag j f =>
    have hne : ¬(j = i ∧ f = g) := fun hee => ha (Or.inl (by rw [hee.1, hee.2]))
    rw [show (execAction (w, out) (Action.setFlag j f)).1 = set_flag w j f from rfl]
    rw [has_flag_set_flag_ne hne]
    exact hf
  | unsetFlag j f => exact has_flag_unset_flag_false hf
  | forget t =>
    rw [show (execAction (w, out) (Action.forget t)).1 = take_out w t from rfl]
    rw [has_flag_take_out]
    exact hf
  | kill j =>
    have hne : ¬(j = i ∧ Flag.dead = g) := fun hee => ha (Or.inr ⟨by rw [hee.1], hee.2.symm⟩)
    rw [show (execAction (w, out) (Action.kill j)).1 = set_flag w j .dead from rfl]
    rw [has_flag_set_flag_ne hne]
    exact hf
  | revive j => exact has_flag_unset_flag_false hf

theorem execScript_rules (s : List Action) (w : World) (out : List Out) :
    (execScript s w out).1.rules = w.rules := by
  induction s generalizing w out with
  | nil => rfl
  | cons a rest ih =>
    rw [execScript_cons]
    rw [ih]
    exact execAction_rules w out a

theorem execScript_clock (s : List Action) (w : World) (out : List Out) :
    (execScript s w out).1.clock = w.clock := by
  induction s generalizing w out with
  | nil => rfl
  | cons a rest ih =>
    rw [execScript_cons, ih]
    exact execAction_clock w out a

theorem execScript_flag_set (s : List Action) (w : World) (out : List Out) (x : ID) :
    has_flag_set (execScript s w out).1 x = has_flag_set w x := by
  induction s generalizing w out with
  | nil => rfl
  | cons a rest ih =>
    rw [execScript_cons, ih]
    exact execAction_flag_set w out a x

theorem execScript_keep_flag {i : ID} {g : Flag} {s : List Action} (w : World) (out : List Out)
    (hs : ScriptKeepsFlag s i g) (hf : has_flag w i g = true) :
    has_flag (execScript s w out).1 i g = true := by
  induction s generalizing w out with
  | nil => exact hf
  | cons a rest ih =>
    rw [execScript_cons]
    exact ih _ _ (fun b hb => hs b (List.mem_cons_of_mem a hb))
      (execAction_keep_flag w out (hs a (List.mem_cons_self a rest)) hf)

theorem execScript_keep_notflag {i : ID} {g : Flag} {s : List Action} (w : World) (out : List Out)
    (hs : ∀ a ∈ s, ¬ SetsFlag a i g) (hf : has_flag w i g = false) :
    has_flag (execScript s w out).1 i g = false := by
  induction s generalizing w out with
  | nil => exact hf
  | cons a rest ih =>
    rw [execScript_cons]
    exact ih _ _ (fun b hb => hs b (List.mem_cons_of_mem a hb))
      (execAction_keep_notflag w out (hs a (List.mem_cons_self a rest)) hf)

/-!  Lemmas about one rule-loop iteration and the fold over rule IDs. -/

theorem runRule_cases (acc : RuleResult) (id : ID) :
    runRule acc id = acc ∨
    ∃ rc, alook acc.world.rules id = some rc ∧ evalPred acc.world rc.predicate = true ∧
      runRule acc id =
        { world := set_flag (execScript rc.script acc.world acc.output).1 id .fired,
          output := (execScript rc.script acc.world acc.output).2,
          fired := acc.fired ++ [id] } := by
  unfold runRule
  split
  next rc heq =>
    split
    next hpred => exact Or.inr ⟨rc, heq, hpred, rfl⟩
    next hpred => exact Or.inl rfl
  next heq => exact Or.inl rfl

theorem runRule_rules (acc : RuleResult) (id : ID) :
    (runRule acc id).world.rules = acc.world.rules := by
  rcases runRule_cases acc id with h | ⟨rc, _, _, h⟩
  · rw [h]
  · rw [h]
    show (set_flag (execScript rc.script acc.world acc.output).1 id .fired).rules = _
    rw [rules_set_flag]
    exact execScript_rules rc.script acc.world acc.output

theorem runRule_clock (acc : RuleResult) (id : ID) :
    (runRule acc id).world.clock = acc.world.clock := by
  rcases runRule_cases acc id with h | ⟨rc, _, _, h⟩
  · rw [h]
  · rw [h]
    show (set_flag (execScript rc.script acc.world acc.output).1 id .fired).clock = _
    rw [clock_set_flag]
    exact execScript_clock rc.script acc.world acc.output

theorem runRule_flag_set (acc : RuleResult) (id : ID) (x : ID) :
    has_flag_set (runRule acc id).world x = has_flag_set acc.world x := by
  rcases runRule_cases acc id with h | ⟨rc, _, _, h⟩
  · rw [h]
  · rw [h]
    show has_flag_set (set_flag (execScript rc.script acc.world acc.output).1 id .fired) x = _
    rw [has_flag_set_set_flag]
    exact execScript_flag_set rc.script acc.world acc.output x

theorem runRule_keep_flag {i : ID} {g : Flag} (acc : RuleResult) (id : ID)
    (hK : ∀ p ∈ acc.world.rules, ScriptKeepsFlag p.2.script i g)
    (hf : has_flag acc.world i g = true) : has_flag (runRule acc id).world i g = true := by
  rcases runRule_cases acc id with h | ⟨rc, halook, _, h⟩
  · rw [h]
    exact hf
  · rw [h]
    show has_flag (set_flag (execScript rc.script acc.world acc.output).1 id .fired) i g = true
    exact has_flag_set_flag_keep id .fired
      (execScript_keep_flag acc.world acc.output (hK (id, rc) (alook_mem halook)) hf)

theorem runRule_keep_notflag {i : ID} {g : Flag} (acc : RuleResult) (id : ID)
    (hA : ∀ p ∈ acc.world.rules, ∀ a ∈ p.2.script, ¬ SetsFlag a i g) (hg : g ≠ Flag.fired)
    (hf : has_flag acc.world i g = false) : has_flag (runRule acc id).world i g = false := by
  rcases runRule_cases acc id with h | ⟨rc, halook, _, h⟩
  · rw [h]
    exact hf
  · rw [h]
    show has_flag (set_flag (execScript rc.script acc.world acc.output).1 id .fired) i g = false
    rw [has_flag_set_flag_ne (fun hee => hg hee.2.symm)]
    exact execScript_keep_notflag acc.world acc.output (hA (id, rc) (alook_mem halook)) hf

theorem runRule_fired_shape (acc : RuleResult) (id : ID) :
    (runRule acc id).fired = acc.fired ∨ (runRule acc id).fired = acc.fired ++ [id] := by
  rcases runRule_cases acc id with h | ⟨rc, _, _, h⟩
  · rw [h]
    exact Or.inl rfl
  · rw [h]
    exact Or.inr rfl

theorem foldl_runRule_rules (ids : List ID) (acc : RuleResult) :
    (ids.foldl runRule acc).world.rules = acc.world.rules := by
  induction ids generalizing acc with
  | nil => rfl
  | cons id rest ih =>
    rw [List.foldl_cons, ih]
    exact runRule_rules acc id

theorem foldl_runRule_clock (ids : List ID) (acc : RuleResult) :
    (ids.foldl runRule acc).world.clock = acc.world.clock := by
  induction ids generalizing acc with
  | nil => rfl
  | cons id rest ih =>
    rw [List.foldl_cons, ih]
    exact runRule_clock acc id

theorem foldl_runRule_flag_set (ids : List ID) (acc : RuleResult) (x : ID) :
    has_flag_set (ids.foldl runRule acc).world x = has_flag_set acc.world x := by
  induction ids generalizing acc with
  | nil => rfl
  | cons id rest ih =>
    rw [List.foldl_cons, ih]
    exact runRule_flag_set acc id x

theorem foldl_runRule_keep_flag {i : ID} {g : Flag} (ids : List ID) (acc : RuleResult)
    (hK : ∀ p ∈ acc.world.rules, ScriptKeepsFlag p.2.script i g)
    (hf : has_flag acc.world i g = true) :
    has_flag (ids.foldl runRule acc).world i g = true := by
  induction ids generalizing acc with
  | nil => exact hf
  | cons id rest ih =>
    rw [List.foldl_cons]
    refine ih (runRule acc id) ?_ (runRule_keep_flag acc id hK hf)
    rw [runRule_rules]
    exact hK

theorem foldl_runRule_keep_notflag {i : ID} {g : Flag} (ids : List ID) (acc : RuleResult)
    (hA : ∀ p ∈ acc.world.rules, ∀ a ∈ p.2.script, ¬ SetsFlag a i g) (hg : g ≠ Flag.fired)
    (hf : has_flag acc.world i g = false) :
    has_flag (ids.foldl runRule acc).world i g = false := by
  induction ids generalizing acc with
  | nil => exact hf
  | cons id rest ih =>
    rw [List.foldl_cons]
    refine ih (runRule acc id) ?_ (runRule_keep_notflag acc id hA hg hf)
    rw [runRule_rules]
    exact hA

theorem foldl_runRule_count_le (r : ID) (ids : List ID) (acc : RuleResult) :
    List.count r (ids.foldl runRule acc).fired ≤ List.count r acc.fired + List.count r ids := by
  induction ids generalizing acc with
  | nil => simp
  | cons id rest ih =>
    rw [List.foldl_cons, List.count_cons]
    simp only [beq_iff_eq]
    have hstep : List.count r (runRule acc id).fired ≤
        List.count r acc.fired + (if id = r then 1 else 0) := by
      rcases runRule_fired_shape acc id with h | h
      · rw [h]
        exact Nat.le_add_right _ _
      · rw [h, List.count_append]
        simp [List.count_singleton', eq_comm]
    calc List.count r (rest.foldl runRule (runRule acc id)).fired
        ≤ List.count r (runRule acc id).fired + List.count r rest := ih (runRule acc id)
      _ ≤ (List.count r acc.fired + (if id = r then 1 else 0)) + List.count r rest :=
          Nat.add_le_add_right hstep _
      _ = List.count r acc.fired + (List.count r rest + if id = r then 1 else 0) := by omega

theorem foldl_runRule_count_ge (r : ID) (ids : List ID) (acc : RuleResult) :
    List.count r acc.fired ≤ List.count r (ids.foldl runRule acc).fired := by
  induction ids generalizing acc with
  | nil => exact Nat.le_refl _
  | cons id rest ih =>
    rw [List.foldl_cons]
    refine Nat.le_trans ?_ (ih (runRule acc id))
    rcases runRule_fired_shape acc id with h | h
    · rw [h]
    · rw [h, List.count_append]
      exact Nat.le_add_right _ _

theorem foldl_runRule_count_flag (r : ID) (ids : List ID) (acc : RuleResult)
    (hK : ∀ p ∈ acc.world.rules, ScriptKeepsFlag p.2.script r Flag.fired)
    (hFS : has_flag_set acc.world r = true)
    (hlt : List.count r acc.fired < List.count r (ids.foldl runRule acc).fired) :
    has_flag (ids.foldl runRule acc).world r .fired = true := by
  induction ids generalizing acc with
  | nil => exact absurd hlt (Nat.lt_irrefl _)
  | cons id rest ih =>
    rw [List.foldl_cons] at hlt ⊢
    by_cases hc : List.count r (runRule acc id).fired = List.count r acc.fired
    · refine ih (runRule acc id) ?_ ?_ ?_
      · rw [runRule_rules]
        exact hK
      · rw [runRule_flag_set]
        exact hFS
      · rw [hc]
        exact hlt
    · rcases runRule_cases acc id with h | ⟨rc, halook, _, h⟩
      · rw [h] at hc
        exact absurd rfl hc
      · have hid : id = r := by
          by_contra hne
          apply hc
          rw [h]
          show List.count r (acc.fired ++ [id]) = _
          rw [List.count_append]
          simp [List.count_singleton', hne]
        subst hid
        have hflag : has_flag (runRule acc id).world id .fired = true := by
          rw [h]
          show has_flag (set_flag (execScript rc.script acc.world acc.output).1 id .fired)
            id .fired = true
          refine has_flag_set_flag_self _ ?_
          rw [execScript_flag_set]
          exact hFS
        refine foldl_runRule_keep_flag rest (runRule acc id) ?_ hflag
        rw [runRule_rules]
        exact hK

/-!  Lemmas about the collected rule-ID lists. -/

theorem eligible_false_of {w : World} {r : ID} (h1 : has_flag w r .fireOnce = true)
    (h2 : has_flag w r .fired = true) : eligible w r = false := by
  simp [eligible, h1, h2]

theorem mem_sysIds (w : World) (r : ID) :
    r ∈ sysIds w ↔ (r ∈ ruleKeys w ∧ eligible w r = true) := by
  unfold sysIds
  exact List.mem_filter

theorem mem_eventIds_eligible {w : World} {ev : Event} {r : ID} (h : r ∈ eventIds w ev) :
    eligible w r = true := by
  unfold eventIds at h
  exact (List.mem_filter.mp h).2

theorem sysIds_nodup {w : World} (hnd : RuleKeysNodup w) : (sysIds w).Nodup := by
  unfold RuleKeysNodup at hnd
  unfold sysIds
  exact hnd.filter _

theorem eventIds_nodup {w : World} (ev : Event) (hnd : RuleKeysNodup w) :
    (eventIds w ev).Nodup := by
  unfold RuleKeysNodup ruleKeys at hnd
  unfold eventIds
  refine List.Nodup.filter _ ?_
  have hsub :
      List.Sublist
        ((w.rules.filter (fun p => !p.2.is_guard && decide (p.2.event = ev))).map (fun p => p.1))
        (w.rules.map (fun p => p.1)) :=
    List.Sublist.map _ (List.filter_sublist _)
  exact List.Nodup.sublist hsub hnd

theorem not_mem_sysIds {w : World} {r : ID} (h1 : has_flag w r .fireOnce = true)
    (h2 : has_flag w r .fired = true) : r ∉ sysIds w := by
  intro hmem
  have := ((mem_sysIds w r).mp hmem).2
  rw [eligible_false_of h1 h2] at this
  cases this

theorem not_mem_eventIds {w : World} {ev : Event} {r : ID} (h1 : has_flag w r .fireOnce = true)
    (h2 : has_flag w r .fired = true) : r ∉ eventIds w ev := by
  intro hmem
  have := mem_eventIds_eligible hmem
  rw [eligible_false_of h1 h2] at this
  cases this

/-!  Bundled properties of a rule-ID fold starting from a fresh result. -/

theorem foldl_props (w2 : World) (out0 : List Out) (ids : List ID) (r : ID)
    (hndids : ids.Nodup)
    (hnotmem : has_flag w2 r .fireOnce = true → has_flag w2 r .fired = true → r ∉ ids)
    (hK : RulesKeepFlag w2 r .fired) (hK2 : RulesKeepFlag w2 r .fireOnce)
    (hFS : has_flag_set w2 r = true) :
    (ids.foldl runRule ⟨w2, out0, []⟩).world.rules = w2.rules ∧
    has_flag_set (ids.foldl runRule ⟨w2, out0, []⟩).world r = true ∧
    (has_flag w2 r .fireOnce = true →
      has_flag (ids.foldl runRule ⟨w2, out0, []⟩).world r .fireOnce = true) ∧
    (has_flag w2 r .fireOnce = true → has_flag w2 r .fired = true →
      List.count r (ids.foldl runRule ⟨w2, out0, []⟩).fired = 0 ∧
      has_flag (ids.foldl runRule ⟨w2, out0, []⟩).world r .fired = true) ∧
    List.count r (ids.foldl runRule ⟨w2, out0, []⟩).fired ≤ 1 ∧
    (0 < List.count r (ids.foldl runRule ⟨w2, out0, []⟩).fired →
      has_flag (ids.foldl runRule ⟨w2, out0, []⟩).world r .fired = true) := by
  refine ⟨foldl_runRule_rules ids _, ?_, ?_, ?_, ?_, ?_⟩
  · rw [foldl_runRule_flag_set]
    exact hFS
  · intro hfo
    exact foldl_runRule_keep_flag ids _ hK2 hfo
  · intro hfo hfd
    constructor
    · have hle := foldl_runRule_count_le r ids ⟨w2, out0, []⟩
      have hz : List.count r ids = 0 := List.count_eq_zero.mpr (hnotmem hfo hfd)
      simp only [List.count_nil] at hle
      omega
    · exact foldl_runRule_keep_flag ids _ hK hfd
  · have hle := foldl_runRule_count_le r ids ⟨w2, out0, []⟩
    have hone : List.count r ids ≤ 1 := List.nodup_iff_count_le_one.mp hndids r
    simp only [List.count_nil] at hle
    omega
  · intro hpos
    refine foldl_runRule_count_flag r ids ⟨w2, out0, []⟩ hK hFS ?_
    simpa using hpos

/-!  Shapes of the high-level guarded operations. -/

theorem enter_room_denied {w : World} {pid room : ID}
    (h : allows w (.enterRoom pid room) = false) :
    enter_room w pid room = ⟨w, [], []⟩ := by
  unfold enter_room
  rw [h]
  rfl

theorem get_thing_denied {w : World} {pid thing : ID}
    (h : allows w (.getThing pid thing) = false) :
    get_thing w pid thing = ⟨w, [], []⟩ := by
  unfold get_thing
  rw [h]
  rfl

theorem read_thing_denied {w : World} {pid thing : ID}
    (h : allows w (.readThing pid thing) = false) :
    read_thing w pid thing = ⟨w, [], []⟩ := by
  unfold read_thing
  rw [h]
  rfl

theorem enter_room_allowed {w : World} {pid room : ID}
    (h : allows w (.enterRoom pid room) = true) :
    enter_room w pid room =
      { world :=
          (fire_event (set_flag (put_in w pid room) pid (.seen room)) (.enterRoom pid room)).world,
        output :=
          (if !(has_flag (put_in w pid room) pid (.seen room)) then [Out.room room]
           else [Out.roomBrief room]) ++
          (fire_event (set_flag (put_in w pid room) pid (.seen room)) (.enterRoom pid room)).output,
        fired :=
          (fire_event (set_flag (put_in w pid room) pid (.seen room)) (.enterRoom pid room)).fired } := by
  unfold enter_room
  rw [h]
  rfl

theorem get_thing_allowed {w : World} {pid thing : ID}
    (h : allows w (.getThing pid thing) = true) :
    get_thing w pid thing =
      { world := (fire_event (put_in w thing pid) (.getThing pid thing)).world,
        output := Out.act "Taken." :: (fire_event (put_in w thing pid) (.getThing pid thing)).output,
        fired := (fire_event (put_in w thing pid) (.getThing pid thing)).fired } := by
  unfold get_thing
  rw [h]
  rfl

theorem read_thing_allowed {w : World} {pid thing : ID}
    (h : allows w (.readThing pid thing) = true) :
    read_thing w pid thing =
      { world := (fire_event w (.readThing pid thing)).world,
        output := Out.readText thing :: (fire_event w (.readThing pid thing)).output,
        fired := (fire_event w (.readThing pid thing)).fired } := by
  unfold read_thing
  rw [h]
  rfl

/-!  The per-operation step lemma for once-only rules. -/

theorem stepOp_props (w : World) (op : WorldOp) (r : ID)
    (hK : RulesKeepFlag w r .fired) (hK2 : RulesKeepFlag w r .fireOnce)
    (hFS : has_flag_set w r = true) (hnd : RuleKeysNodup w) :
    (stepOp w op).world.rules = w.rules ∧
    has_flag_set (stepOp w op).world r = true ∧
    (has_flag w r .fireOnce = true → has_flag (stepOp w op).world r .fireOnce = true) ∧
    (has_flag w r .fireOnce = true → has_flag w r .fired = true →
      List.count r (stepOp w op).fired = 0 ∧ has_flag (stepOp w op).world r .fired = true) ∧
    List.count r (stepOp w op).fired ≤ 1 ∧
    (0 < List.count r (stepOp w op).fired → has_flag (stepOp w op).world r .fired = true) := by
  have hgen : ∀ (w2 : World) (ev : Event),
      w2.rules = w.rules →
      has_flag_set w2 r = has_flag_set w r →
      has_flag w2 r .fired = has_flag w r .fired →
      has_flag w2 r .fireOnce = has_flag w r .fireOnce →
      (fire_event w2 ev).world.rules = w.rules ∧
      has_flag_set (fire_event w2 ev).world r = true ∧
      (has_flag w r .fireOnce = true → has_flag (fire_event w2 ev).world r .fireOnce = true) ∧
      (has_flag w r .fireOnce = true → has_flag w r .fired = true →
        List.count r (fire_event w2 ev).fired = 0 ∧
        has_flag (fire_event w2 ev).world r .fired = true) ∧
      List.count r (fire_event w2 ev).fired ≤ 1 ∧
      (0 < List.count r (fire_event w2 ev).fired →
        has_flag (fire_event w2 ev).world r .fired = true) := by
    intro w2 ev hrules hfs2 hfired2 hfo2
    have hK' : RulesKeepFlag w2 r .fired := by
      unfold RulesKeepFlag
      rw [hrules]
      exact hK
    have hK2' : RulesKeepFlag w2 r .fireOnce := by
      unfold RulesKeepFlag
      rw [hrules]
      exact hK2
    have hFS' : has_flag_set w2 r = true := by rw [hfs2]; exact hFS
    have hnd' : (eventIds w2 ev).Nodup := by
      refine eventIds_nodup ev ?_
      unfold RuleKeysNodup ruleKeys
      rw [hrules]
      exact hnd
    have hp : (fire_event w2 ev).world.rules = w2.rules ∧
        has_flag_set (fire_event w2 ev).world r = true ∧
        (has_flag w2 r .fireOnce = true →
          has_flag (fire_event w2 ev).world r .fireOnce = true) ∧
        (has_flag w2 r .fireOnce = true → has_flag w2 r .fired = true →
          List.count r (fire_event w2 ev).fired = 0 ∧
          has_flag (fire_event w2 ev).world r .fired = true) ∧
        List.count r (fire_event w2 ev).fired ≤ 1 ∧
        (0 < List.count r (fire_event w2 ev).fired →
          has_flag (fire_event w2 ev).world r .fired = true) :=
      foldl_props w2 [] (eventIds w2 ev) r hnd'
        (fun h1 h2 => not_mem_eventIds h1 h2) hK' hK2' hFS'
    refine ⟨hp.1.trans hrules, hp.2.1, ?_, ?_, hp.2.2.2.2.1, hp.2.2.2.2.2⟩
    · intro hfo
      exact hp.2.2.1 (by rw [hfo2]; exact hfo)
    · intro hfo hfd
      exact hp.2.2.2.1 (by rw [hfo2]; exact hfo) (by rw [hfired2]; exact hfd)
  cases op with
  | tick =>
    have hp := foldl_props w [] (sysIds w) r (sysIds_nodup hnd)
      (fun h1 h2 => not_mem_sysIds h1 h2) hK hK2 hFS
    exact hp
  | enterRoomOp pid room =>
    by_cases hallow : allows w (.enterRoom pid room) = true
    · have hne : ¬(pid = r ∧ Flag.seen room = Flag.fired) := fun hee => Flag.noConfusion hee.2
      have hne2 : ¬(pid = r ∧ Flag.seen room = Flag.fireOnce) := fun hee => Flag.noConfusion hee.2
      have hg := hgen (set_flag (put_in w pid room) pid (.seen room)) (.enterRoom pid room)
        (by rw [rules_set_flag, rules_put_in])
        (by rw [has_flag_set_set_flag, has_flag_set_put_in])
        (by rw [has_flag_set_flag_ne hne, has_flag_put_in])
        (by rw [has_flag_set_flag_ne hne2, has_flag_put_in])
      rw [show stepOp w (.enterRoomOp pid room) = enter_room w pid room from rfl,
        enter_room_allowed hallow]
      exact hg
    · have hfalse : allows w (.enterRoom pid room) = false := by
        cases hx : allows w (.enterRoom pid room)
        · rfl
        · exact absurd hx hallow
      rw [show stepOp w (.enterRoomOp pid room) = enter_room w pid room from rfl,
        enter_room_denied hfalse]
      refine ⟨rfl, hFS, fun hfo => hfo, fun _ hfd => ⟨rfl, hfd⟩, by simp, ?_⟩
      intro hpos
      simp only [List.count_nil] at hpos
      exact absurd hpos (Nat.lt_irrefl 0)
  | getThingOp pid thing =>
    by_cases hallow : allows w (.getThing pid thing) = true
    · have hg := hgen (put_in w thing pid) (.getThing pid thing)
        (rules_put_in w thing pid)
        (has_flag_set_put_in w thing pid r)
        (has_flag_put_in w thing pid r .fired)
        (has_flag_put_in w thing pid r .fireOnce)
      rw [show stepOp w (.getThingOp pid thing) = get_thing w pid thing from rfl,
        get_thing_allowed hallow]
      exact hg
    · have hfalse : allows w (.getThing pid thing) = false := by
        cases hx : allows w (.getThing pid thing)
        · rfl
        · exact absurd hx hallow
      rw [show stepOp w (.getThingOp pid thing) = get_thing w pid thing from rfl,
        get_thing_denied hfalse]
      refine ⟨rfl, hFS, fun hfo => hfo, fun _ hfd => ⟨rfl, hfd⟩, by simp, ?_⟩
      intro hpos
      simp only [List.count_nil] at hpos
      exact absurd hpos (Nat.lt_irrefl 0)
  | readThingOp pid thing =>
    by_cases hallow : allows w (.readThing pid thing) = true
    · have hg := hgen w (.readThing pid thing) rfl rfl rfl rfl
      rw [show stepOp w (.readThingOp pid thing) = read_thing w pid thing from rfl,
        read_thing_allowed hallow]
      exact hg
    · have hfalse : allows w (.readThing pid thing) = false := by
        cases hx : allows w (.readThing pid thing)
        · rfl
        · exact absurd hx hallow
      rw [show stepOp w (.readThingOp pid thing) = read_thing w pid thing from rfl,
        read_thing_denied hfalse]
      refine ⟨rfl, hFS, fun hfo => hfo, fun _ hfd => ⟨rfl, hfd⟩, by simp, ?_⟩
      intro hpos
      simp only [List.count_nil] at hpos
      exact absurd hpos (Nat.lt_irrefl 0)
  | putInOp thing container =>
    have hworld : (stepOp w (.putInOp thing container)).world = put_in w thing container := rfl
    have hfired : (stepOp w (.putInOp thing container)).fired = ([] : List ID) := rfl
    refine ⟨rules_put_in w thing container, ?_, ?_, ?_, ?_, ?_⟩
    · rw [hworld, has_flag_set_put_in]
      exact hFS
    · intro hfo
      rw [hworld, has_flag_put_in]
      exact hfo
    · intro _ hfd
      refine ⟨by rw [hfired]; rfl, ?_⟩
      rw [hworld, has_flag_put_in]
      exact hfd
    · rw [hfired]
      simp
    · intro hpos
      rw [hfired] at hpos
      simp only [List.count_nil] at hpos
      exact absurd hpos (Nat.lt_irrefl 0)
  | takeOutOp thing =>
    have hworld : (stepOp w (.takeOutOp thing)).world = take_out w thing := rfl
    have hfired : (stepOp w (.takeOutOp thing)).fired = ([] : List ID) := rfl
    refine ⟨rules_take_out w thing, ?_, ?_, ?_, ?_, ?_⟩
    · rw [hworld, has_flag_set_take_out]
      exact hFS
    · intro hfo
      rw [hworld, has_flag_take_out]
      exact hfo
    · intro _ hfd
      refine ⟨by rw [hfired]; rfl, ?_⟩
      rw [hworld, has_flag_take_out]
      exact hfd
    · rw [hfired]
      simp
    · intro hpos
      rw [hfired] at hpos
      simp only [List.count_nil] at hpos
      exact absurd hpos (Nat.lt_irrefl 0)

theorem runOps_cons_fst (w : World) (op : WorldOp) (rest : List WorldOp) :
    (runOps w (op :: rest)).1 = (runOps (stepOp w op).world rest).1 := rfl

theorem runOps_cons_snd (w : World) (op : WorldOp) (rest : List WorldOp) :
    (runOps w (op :: rest)).2 = (stepOp w op).fired ++ (runOps (stepOp w op).world rest).2 := rfl

/-- C4 (amended): across any operation sequence (rule monitor ticks, guarded
operations, primitive mutators), a rule r with the FireOnce flag, a flag-set
component, duplicate-free rule keys, and scripts that never clear its Fired
or FireOnce flag, executes its actions at most once; and once its Fired flag
is set, no operation of the sequence clears it and it never executes
again. -/
theorem once_only_lifetime (r : ID) (ops : List WorldOp) (w : World)
    (hnd : RuleKeysNodup w) (hOP : OnceProtected w r) (hFS : has_flag_set w r = true)
    (hfo : has_flag w r .fireOnce = true) :
    (has_flag w r .fired = true →
      List.count r (runOps w ops).2 = 0 ∧ has_flag (runOps w ops).1 r .fired = true) ∧
    (has_flag w r .fired = false → List.count r (runOps w ops).2 ≤ 1) := by
  induction ops generalizing w with
  | nil =>
    constructor
    · intro hfd
      exact ⟨by simp [runOps], by simpa [runOps] using hfd⟩
    · intro _
      simp [runOps]
  | cons op rest ih =>
    obtain ⟨hK, hK2⟩ := hOP
    obtain ⟨hrules, hFS', hfoP, hfiredP, hle, hposP⟩ := stepOp_props w op r hK hK2 hFS hnd
    have hnd' : RuleKeysNodup (stepOp w op).world := by
      unfold RuleKeysNodup ruleKeys
      rw [hrules]
      exact hnd
    have hOP' : OnceProtected (stepOp w op).world r := by
      unfold OnceProtected RulesKeepFlag
      rw [hrules]
      exact ⟨hK, hK2⟩
    have hIH := ih (stepOp w op).world hnd' hOP' hFS' (hfoP hfo)
    constructor
    · intro hfd
      obtain ⟨hc0, hfd'⟩ := hfiredP hfo hfd
      obtain ⟨hct, hft⟩ := hIH.1 hfd'
      constructor
      · rw [runOps_cons_snd, List.count_append, hc0, hct]
      · rw [runOps_cons_fst]
        exact hft
    · intro hfd
      rw [runOps_cons_snd, List.count_append]
      rcases Nat.lt_or_ge 0 (List.count r (stepOp w op).fired) with hpos | hz
      · have hflag := hposP hpos
        have hct := (hIH.1 hflag).1
        omega
      · have hz0 : List.count r (stepOp w op).fired = 0 := Nat.le_zero.mp hz
        cases hf2 : has_flag (stepOp w op).world r .fired with
        | true =>
          have hct := (hIH.1 hf2).1
          omega
        | false =>
          have hct := hIH.2 hf2
          omega

/-!  Error paths of the built-in commands leave the world untouched. -/

theorem wrap_fst (g : Game) (r : CmdRes) : (wrap g r).1 = r.1 := rfl

theorem wrap_err {g : Game} {r : CmdRes} {msg : String}
    (h : r = (Except.error msg, g.world, [])) : wrap g r = (Except.error msg, g, []) := by
  rw [h]
  rfl

theorem cmd_go_err {w : World} {p : Player} {d : Dir} {msg : String}
    (h : (cmd_go w p d).1 = Except.error msg) : cmd_go w p d = (Except.error msg, w, []) := by
  unfold cmd_go at h ⊢
  split at h <;> simp_all

theorem cmd_examine_err {w : World} {p : Player} {name : String} {msg : String}
    (h : (cmd_examine w p name).1 = Except.error msg) :
    cmd_examine w p name = (Except.error msg, w, []) := by
  unfold cmd_examine at h ⊢
  split at h <;> (try split at h) <;> simp_all

theorem cmd_read_err {w : World} {p : Player} {name : String} {msg : String}
    (h : (cmd_read w p name).1 = Except.error msg) :
    cmd_read w p name = (Except.error msg, w, []) := by
  unfold cmd_read at h ⊢
  split at h <;> (try split at h) <;> (try split at h) <;> simp_all

theorem cmd_get_err {w : World} {p : Player} {noun : String} {msg : String}
    (h : (cmd_get w p noun).1 = Except.error msg) :
    cmd_get w p noun = (Except.error msg, w, []) := by
  unfold cmd_get at h ⊢
  split at h <;> (try split at h) <;> (try split at h) <;> simp_all

theorem cmd_drop_err {w : World} {p : Player} {noun : String} {msg : String}
    (h : (cmd_drop w p noun).1 = Except.error msg) :
    cmd_drop w p noun = (Except.error msg, w, []) := by
  unfold cmd_drop at h ⊢
  split at h <;> (try split at h) <;> (try split at h) <;> simp_all

theorem cmd_undo_err {g : Game} {msg : String}
    (h : (cmd_undo g).1 = Except.error msg) : cmd_undo g = (Except.error msg, []) := by
  unfold cmd_undo at h ⊢
  split at h <;> simp_all

theorem handle_debug_err {w : World} {pl : Player} {words : List String} {msg : String}
    (h : (handle_debug_command w pl words).1 = Except.error msg) :
    handle_debug_command w pl words = (Except.error msg, w, []) := by
  unfold handle_debug_command at h ⊢
  repeat' split at h
  all_goals simp_all

set_option maxHeartbeats 3200000 in
theorem handle_normal_err {g : Game} {pl : Player} {words : List String} {msg : String}
    (h : (handle_normal_command g pl words).1 = Except.error msg) :
    handle_normal_command g pl words = (Except.error msg, g, []) := by
  unfold handle_normal_command at h ⊢
  repeat' split at h
  all_goals (try simp only [wrap_fst] at h)
  all_goals (try rw [cmd_undo_err h])
  all_goals (try simp_all)
  all_goals
    first
    | exact wrap_err (cmd_go_err h)
    | exact wrap_err (cmd_examine_err h)
    | exact wrap_err (cmd_read_err h)
    | exact wrap_err (cmd_get_err h)
    | exact wrap_err (cmd_drop_err h)
    | simp [cmd_help] at h
    | simp [cmd_look] at h
    | simp [cmd_inventory] at h

theorem handle_normal_shape (g : Game) (pl : Player) (words : List String) :
    (handle_normal_command g pl words).2.1.undoStack = g.undoStack ∧
    (handle_normal_command g pl words).2.1.initial = g.initial := by
  unfold handle_normal_command
  repeat' split
  all_goals exact ⟨rfl, rfl⟩

theorem handle_input_parse_err {parse : ParseFn} {g : Game} {pl : Player} {input : String}
    {e : String} (hp : parse g.world input = Except.error e) :
    handle_input parse g pl input = (Except.error e, g, []) := by
  unfold handle_input
  rw [hp]

theorem handle_input_parse_ok {parse : ParseFn} {g : Game} {pl : Player} {input : String}
    {cmd : Command} (hp : parse g.world input = Except.ok cmd) :
    handle_input parse g pl input =
      (if cmd.is_debug = true then wrap g (handle_debug_command g.world pl cmd.words)
       else handle_normal_command g pl cmd.words) := by
  unfold handle_input
  rw [hp]

theorem handle_input_stack (parse : ParseFn) (g : Game) (pl : Player) (input : String) :
    (handle_input parse g pl input).2.1.undoStack = g.undoStack ∧
    (handle_input parse g pl input).2.1.initial = g.initial := by
  cases hp : parse g.world input with
  | error e =>
    rw [handle_input_parse_err hp]
    exact ⟨rfl, rfl⟩
  | ok cmd =>
    rw [handle_input_parse_ok hp]
    by_cases hd : cmd.is_debug = true
    · rw [if_pos hd]
      exact ⟨rfl, rfl⟩
    · rw [if_neg hd]
      exact handle_normal_shape g pl cmd.words

theorem handle_input_err {parse : ParseFn} {g : Game} {pl : Player} {input : String}
    {msg : String} (h : (handle_input parse g pl input).1 = Except.error msg) :
    handle_input parse g pl input = (Except.error msg, g, []) := by
  cases hp : parse g.world input with
  | error e =>
    rw [handle_input_parse_err hp] at h ⊢
    have h2 : e = msg := by simpa using h
    rw [h2]
  | ok cmd =>
    rw [handle_input_parse_ok hp] at h ⊢
    by_cases hd : cmd.is_debug = true
    · rw [if_pos hd] at h ⊢
      rw [wrap_fst] at h
      exact wrap_err (handle_debug_err h)
    · rw [if_neg hd] at h ⊢
      exact handle_normal_err h

theorem pcSystem_err {parse : ParseFn} {g : Game} {input : String} {msg : String}
    (h : (handle_input parse g (mkPlayer g) input).1 = Except.error msg) :
    pcSystem parse g input = (g, [Out.errText msg]) := by
  unfold pcSystem
  rw [handle_input_err h]
  rfl

theorem pcSystem_normal {parse : ParseFn} {g : Game} {input : String}
    (h : (handle_input parse g (mkPlayer g) input).1 = Except.ok Status.normal) :
    pcSystem parse g input =
      (save_for_undo (handle_input parse g (mkPlayer g) input).2.1 g.world,
       (handle_input parse g (mkPlayer g) input).2.2) := by
  unfold pcSystem pcFinish
  rw [h]

theorem rmSystem_clock (w : World) : (rmSystem w).world.clock = w.clock :=
  foldl_runRule_clock (sysIds w) ⟨w, [], []⟩

/-!  Claim theorems, witnesses and counterexamples. -/

/-- C1: for every high-level guarded operation of phys.rs (enter_room,
get_thing, read_thing), if the guards bound to the operation's event deny it
(the modelled rule::allows returns false), the operation leaves the World
bit-for-bit identical, renders nothing, and fires no triggers. -/
theorem guard_veto (w : World) (pid : ID) (op : HighOp)
    (h : allows w (opEvent pid op) = false) :
    runHigh w pid op = { world := w, output := [], fired := [] } := by
  cases op with
  | enterR room => exact enter_room_denied h
  | getT thing => exact get_thing_denied h
  | readT thing => exact read_thing_denied h

/-- Witness for C1: in w_guard the guard on GetThing(1, 2) denies, and
get_thing leaves the world untouched with no triggers fired. -/
theorem guard_veto_witness :
    allows w_guard (Event.getThing 1 2) = false ∧
    runHigh w_guard 1 (HighOp.getT 2) = { world := w_guard, output := [], fired := [] } :=
  ⟨by decide, guard_veto w_guard 1 (HighOp.getT 2) (by decide)⟩

/-- C5 (amended): the game loop increments the turn counter exactly once at
the end of every iteration, whatever the rule system did; in particular a
command that fails to resolve (the handler returns an error) still advances
the counter by one. -/
theorem clock_per_iteration (parse : ParseFn) (g : Game) (input : String) :
    ((runStep parse g input).1.world.clock = (pcSystem parse g input).1.world.clock + 1) ∧
    (∀ msg, (handle_input parse g (mkPlayer g) input).1 = Except.error msg →
      (runStep parse g input).1.world.clock = g.world.clock + 1) := by
  constructor
  · show (rmSystem (pcSystem parse g input).1.world).world.clock + 1 =
      (pcSystem parse g input).1.world.clock + 1
    rw [rmSystem_clock]
  · intro msg h
    unfold runStep
    rw [pcSystem_err h]
    show (rmSystem g.world).world.clock + 1 = g.world.clock + 1
    rw [rmSystem_clock]

/-- Counterexample for C5: the unresolvable command xyzzy is rejected with
an error, yet the loop iteration advances the turn counter from 0 to 1. -/
theorem clock_rejected_advances :
    (handle_input parse_unknown g_empty (mkPlayer g_empty) "xyzzy").1 =
      Except.error "I do not understand." ∧
    g_empty.world.clock = 0 ∧
    (runStep parse_unknown g_empty "xyzzy").1.world.clock = 1 := ⟨rfl, rfl, rfl⟩

/-- Witness for C5 (amended): at the concrete rejected command the counter
advances by exactly one. -/
theorem clock_per_iteration_witness :
    (handle_input parse_unknown g_empty (mkPlayer g_empty) "xyzzy").1 =
      Except.error "I do not understand." ∧
    (runStep parse_unknown g_empty "xyzzy").1.world.clock = g_empty.world.clock + 1 :=
  ⟨rfl, (clock_per_iteration parse_unknown g_empty "xyzzy").2 "I do not understand." rfl⟩

/-- C6 (amended): whenever handling an input yields a recoverable error
(command not understood, object not visible, nothing to undo, or a resolver
failure), the game — world, undo stack and all — is left unchanged, nothing
but the error message is rendered, and the loop continues with the same
game. -/
theorem error_frame (parse : ParseFn) (g : Game) (input : String) (msg : String)
    (h : (handle_input parse g (mkPlayer g) input).1 = Except.error msg) :
    (handle_input parse g (mkPlayer g) input).2.1 = g ∧
    (handle_input parse g (mkPlayer g) input).2.2 = [] ∧
    pcSystem parse g input = (g, [Out.errText msg]) := by
  have h2 := handle_input_err h
  refine ⟨?_, ?_, pcSystem_err h⟩
  · rw [h2]
  · rw [h2]

/-- Counterexample for C6: a guard-denied get is not surfaced as an error
return; cmd_get completes with Normal status, an unchanged world and no
message, refuting the claim that every guard-denied operation makes the
command handler return an error message. -/
theorem guard_denied_not_error :
    allows w_deny (Event.getThing 1 2) = false ∧
    cmd_get w_deny { id := 1, loc := 3 } "gem" = (Except.ok Status.normal, w_deny, []) := by
  constructor
  · decide
  · rfl

/-- Witness for C6 (amended): a failing resolver leaves the concrete game
unchanged and renders exactly the error. -/
theorem error_frame_witness :
    (handle_input parse_fail g_empty (mkPlayer g_empty) "blah").1 =
      Except.error "That makes no sense." ∧
    pcSystem parse_fail g_empty "blah" = (g_empty, [Out.errText "That makes no sense."]) :=
  ⟨rfl, (error_frame parse_fail g_empty "blah" "That makes no sense." rfl).2.2⟩

/-- C2: starting from a world satisfying the location and inventory
invariant I1, any sequence of put_in and take_out calls whose containers
carry inventory components (the assertions the source makes before
mutating; LIMBO always has one) preserves I1: every located entity sits in
the inventory of its location and in no other inventory. -/
theorem i1_round_trip (ops : List PhysOp) (w : World) (h : I1 w)
    (hL : has_inventory w LIMBO = true) (hops : ∀ op ∈ ops, PhysOpOk w op) :
    I1 (applyPhysList w ops) := by
  induction ops generalizing w with
  | nil => exact h
  | cons op rest ih =>
    show I1 (applyPhysList (applyPhys w op) rest)
    refine ih (applyPhys w op) (I1_applyPhys h hL (hops op (List.mem_cons_self op rest))) ?_ ?_
    · rw [has_inventory_applyPhys]
      exact hL
    · intro op2 hop2
      have h2 := hops op2 (List.mem_cons_of_mem op hop2)
      cases op2 with
      | putInP t c =>
        show has_inventory (applyPhys w op) c = true
        rw [has_inventory_applyPhys]
        exact h2
      | takeOutP t => trivial

/-- Witness for C2: the concrete world w_phys satisfies I1 and still does
after the mutator sequence ops_phys. -/
theorem i1_round_trip_witness :
    I1 w_phys ∧ has_inventory w_phys LIMBO = true ∧ I1 (applyPhysList w_phys ops_phys) := by
  have hI : I1 w_phys := by
    intro e c he
    have hec : e = 2 ∧ c = 1 := by
      by_cases h2 : (2 : ID) = e
      · subst h2
        have hx : alook w_phys.locations 2 = some 1 := rfl
        rw [hx] at he
        exact ⟨rfl, (Option.some.inj he).symm⟩
      · exfalso
        have hx : alook w_phys.locations e = none := by
          show alook [((2 : ID), (1 : ID))] e = none
          simp [alook, h2]
        rw [hx] at he
        exact Option.noConfusion he
    obtain ⟨he2, hc1⟩ := hec
    subst he2
    subst hc1
    constructor
    · decide
    · intro c2 hc2
      obtain ⟨inv, hmem, hx⟩ := contents_mem_table hc2
      have hrw : w_phys.inventories = [(0, []), (1, [2]), (4, [])] := rfl
      rw [hrw] at hmem
      simp only [List.mem_cons, List.not_mem_nil, or_false, Prod.mk.injEq] at hmem
      rcases hmem with ⟨hc0, hinv⟩ | ⟨hc0, hinv⟩ | ⟨hc0, hinv⟩
      · subst hinv
        simp at hx
      · exact hc0
      · subst hinv
        simp at hx
  refine ⟨hI, by decide, ?_⟩
  refine i1_round_trip ops_phys w_phys hI (by decide) ?_
  intro op hop
  rw [show ops_phys = [PhysOp.putInP 2 4, PhysOp.takeOutP 2, PhysOp.putInP 2 1] from rfl] at hop
  fin_cases hop
  · show has_inventory w_phys 4 = true
    decide
  · trivial
  · show has_inventory w_phys 1 = true
    decide

/-- C7: visible is the union of the viewer's own inventory (when the viewer
has one) and the contents of the viewer's location (when the viewer has
one), without duplicates and with no recursion into nested containers. -/
theorem visible_union (w : World) (viewer : ID) (hnd : InvNodup w) :
    (∀ x, x ∈ visible w viewer ↔
      ((has_inventory w viewer = true ∧ x ∈ contents w viewer) ∨
       (has_location w viewer = true ∧ x ∈ contents w (loc w viewer)))) ∧
    (visible w viewer).Nodup := by
  constructor
  · intro x
    unfold visible vis_own vis_loc
    by_cases hi : has_inventory w viewer = true <;>
      by_cases hl : has_location w viewer = true <;>
        simp [hi, hl, List.mem_filter] <;>
          tauto
  · unfold visible
    refine List.Nodup.append ?_ (List.Nodup.filter _ ?_) ?_
    · unfold vis_own
      split
      · exact contents_nodup hnd viewer
      · exact List.nodup_nil
    · unfold vis_loc
      split
      · exact contents_nodup hnd (loc w viewer)
      · exact List.nodup_nil
    · intro a ha hb
      have := (List.mem_filter.mp hb).2
      rw [decide_eq_true_eq] at this
      exact this ha

/-- Witness for C7: the concrete viewer 1 of w_view sees the union of its
inventory and its room contents, without duplicates. -/
theorem visible_union_witness :
    InvNodup w_view ∧ (visible w_view 1).Nodup ∧
    (2 ∈ visible w_view 1 ↔
      ((has_inventory w_view 1 = true ∧ 2 ∈ contents w_view 1) ∨
       (has_location w_view 1 = true ∧ 2 ∈ contents w_view (loc w_view 1)))) :=
  ⟨by decide, (visible_union w_view 1 (by decide)).2, (visible_union w_view 1 (by decide)).1 2⟩

/-- C8: an allowed enter_room renders the full room description exactly when
the Seen flag for the room is unset and the brief one exactly when it is
set, and afterwards the Seen flag is set (given the player has a flag set
and no rule script clears that Seen flag). -/
theorem enter_room_seen (w : World) (pid room : ID)
    (hallow : allows w (.enterRoom pid room) = true)
    (hfs : has_flag_set w pid = true)
    (hq : RulesKeepFlag w pid (.seen room)) :
    ((enter_room w pid room).output.head? = some (Out.room room) ↔
      has_flag w pid (.seen room) = false) ∧
    ((enter_room w pid room).output.head? = some (Out.roomBrief room) ↔
      has_flag w pid (.seen room) = true) ∧
    has_flag (enter_room w pid room).world pid (.seen room) = true := by
  rw [enter_room_allowed hallow]
  rw [show has_flag (put_in w pid room) pid (Flag.seen room) = has_flag w pid (Flag.seen room)
    from has_flag_put_in w pid room pid _]
  refine ⟨?_, ?_, ?_⟩
  · cases hsf : has_flag w pid (.seen room) with
    | false => simp [hsf]
    | true => simp [hsf]
  · cases hsf : has_flag w pid (.seen room) with
    | false => simp [hsf]
    | true => simp [hsf]
  · have hr : (set_flag (put_in w pid room) pid (.seen room)).rules = w.rules := by
      rw [rules_set_flag, rules_put_in]
    have h1 : has_flag (set_flag (put_in w pid room) pid (.seen room)) pid (.seen room) = true := by
      refine has_flag_set_flag_self _ ?_
      rw [has_flag_set_put_in]
      exact hfs
    have hK2 : ∀ p ∈ (set_flag (put_in w pid room) pid (.seen room)).rules,
        ScriptKeepsFlag p.2.script pid (.seen room) := by
      rw [hr]
      exact hq
    exact foldl_runRule_keep_flag
      (eventIds (set_flag (put_in w pid room) pid (.seen room)) (.enterRoom pid room))
      ⟨set_flag (put_in w pid room) pid (.seen room), [], []⟩ hK2 h1

/-- Witness for C8: in w_enter the move into room 7 is allowed, the Seen
flag starts unset, and it is set after the operation. -/
theorem enter_room_seen_witness :
    allows w_enter (Event.enterRoom 1 7) = true ∧
    has_flag w_enter 1 (Flag.seen 7) = false ∧
    has_flag (enter_room w_enter 1 7).world 1 (Flag.seen 7) = true :=
  ⟨by decide, by decide,
   (enter_room_seen w_enter 1 7 (by decide) (by decide) (by decide)).2.2⟩

/-- C10: the rule monitor skips a rule exactly when it has both the FireOnce
and the Fired flag; a rule that fires has its Fired flag set afterwards
(when no script clears it); and a repeatable rule without FireOnce (and with
no script setting FireOnce) is still collected for evaluation after a
run. -/
theorem rule_monitor_spec (w : World) (r : ID) :
    (r ∈ sysIds w ↔
      (r ∈ ruleKeys w ∧
        ¬(has_flag w r .fireOnce = true ∧ has_flag w r .fired = true))) ∧
    (RulesKeepFlag w r .fired → has_flag_set w r = true → r ∈ (rmSystem w).fired →
      has_flag (rmSystem w).world r .fired = true) ∧
    (RulesAvoidFlag w r .fireOnce → has_flag w r .fireOnce = false →
      (r ∈ sysIds (rmSystem w).world ↔ r ∈ ruleKeys w)) := by
  refine ⟨?_, ?_, ?_⟩
  · rw [mem_sysIds]
    have he : eligible w r = true ↔
        ¬(has_flag w r .fireOnce = true ∧ has_flag w r .fired = true) := by
      unfold eligible
      cases has_flag w r .fireOnce <;> cases has_flag w r .fired <;> simp
    rw [he]
  · intro hK hFS hmem
    have hpos : 0 < List.count r (rmSystem w).fired := List.count_pos_iff.mpr hmem
    exact foldl_runRule_count_flag r (sysIds w) ⟨w, [], []⟩ hK hFS (by simpa using hpos)
  · intro hA hfo
    have hfo2 : has_flag (rmSystem w).world r .fireOnce = false :=
      foldl_runRule_keep_notflag (sysIds w) ⟨w, [], []⟩ hA
        (fun hcc => Flag.noConfusion hcc) hfo
    have hkeys : ruleKeys (rmSystem w).world = ruleKeys w := by
      unfold ruleKeys
      have h1 : (rmSystem w).world.rules = w.rules := foldl_runRule_rules (sysIds w) ⟨w, [], []⟩
      rw [h1]
    rw [mem_sysIds, hkeys]
    have helig : eligible (rmSystem w).world r = true := by
      unfold eligible
      rw [hfo2]
      rfl
    rw [helig]
    simp

/-- Witness for C10: in w_monitor the repeatable rule 10 fires, gets its
Fired flag, and stays eligible; the exhausted once-only rule 11 is
skipped. -/
theorem rule_monitor_spec_witness :
    RulesKeepFlag w_monitor 10 Flag.fired ∧
    has_flag_set w_monitor 10 = true ∧
    10 ∈ (rmSystem w_monitor).fired ∧
    has_flag (rmSystem w_monitor).world 10 Flag.fired = true ∧
    RulesAvoidFlag w_monitor 10 Flag.fireOnce ∧
    has_flag w_monitor 10 Flag.fireOnce = false ∧
    (10 ∈ sysIds (rmSystem w_monitor).world ↔ 10 ∈ ruleKeys w_monitor) ∧
    11 ∉ sysIds w_monitor :=
  ⟨by decide, by decide, by decide,
   (rule_monitor_spec w_monitor 10).2.1 (by decide) (by decide) (by decide),
   by decide, by decide,
   (rule_monitor_spec w_monitor 10).2.2 (by decide) (by decide),
   by decide⟩

/-- Counterexample for C4: in w_clear the once-only rule 10 has fired, yet a
single run of the rule monitor (no undo involved) clears its Fired flag
through the clear-flag script of rule 11, after which rule 10 is eligible to
fire again. -/
theorem fired_flag_cleared :
    has_flag w_clear 10 Flag.fired = true ∧
    has_flag (rmSystem w_clear).world 10 Flag.fired = false ∧
    10 ∈ sysIds (rmSystem w_clear).world := ⟨by decide, by decide, by decide⟩

/-- Witness for C4 (amended): the protected once-only rule 10 of w_once
executes at most once across two monitor ticks. -/
theorem once_only_lifetime_witness :
    RuleKeysNodup w_once ∧ OnceProtected w_once 10 ∧ has_flag_set w_once 10 = true ∧
    has_flag w_once 10 Flag.fireOnce = true ∧ has_flag w_once 10 Flag.fired = false ∧
    List.count 10 (runOps w_once [WorldOp.tick, WorldOp.tick]).2 ≤ 1 :=
  ⟨by decide, by decide, by decide, by decide, by decide,
   (once_only_lifetime 10 [WorldOp.tick, WorldOp.tick] w_once (by decide) (by decide)
     (by decide) (by decide)).2 (by decide)⟩

/-- C3 (amended): after any command handled with Normal status (debug
commands included), the pre-command world is pushed as the undo point, and
issuing the undo command on a later loop state restores the live world to
that snapshot exactly — tag table, flags, locations and turn counter
included, since the whole World value is replaced. -/
theorem undo_exact (parse : ParseFn) (g : Game) (input : String)
    (h1 : (handle_input parse g (mkPlayer g) input).1 = Except.ok Status.normal)
    (parse2 : ParseFn) (input2 : String)
    (h2 : ∀ wx, parse2 wx input2 = Except.ok { is_debug := false, words := ["undo"] }) :
    (pcSystem parse g input).1.undoStack = g.world :: g.undoStack ∧
    (pcSystem parse2 (runStep parse g input).1 input2).1.world = g.world := by
  have hstack : (pcSystem parse g input).1.undoStack = g.world :: g.undoStack := by
    rw [pcSystem_normal h1]
    show g.world :: (handle_input parse g (mkPlayer g) input).2.1.undoStack =
      g.world :: g.undoStack
    rw [(handle_input_stack parse g (mkPlayer g) input).1]
  refine ⟨hstack, ?_⟩
  have hg2stack : (runStep parse g input).1.undoStack = g.world :: g.undoStack := by
    show (pcSystem parse g input).1.undoStack = g.world :: g.undoStack
    exact hstack
  have hhi : handle_input parse2 (runStep parse g input).1
      (mkPlayer (runStep parse g input).1) input2 =
      ((cmd_undo (runStep parse g input).1).1, (runStep parse g input).1,
       (cmd_undo (runStep parse g input).1).2) := by
    rw [handle_input_parse_ok (h2 _)]
    rfl
  have hcu : cmd_undo (runStep parse g input).1 = (Except.ok Status.undoSt, [Out.act "Undone."]) := by
    unfold cmd_undo has_undo
    rw [hg2stack]
    rfl
  unfold pcSystem pcFinish
  rw [hhi, hcu]
  show (game_undo (runStep parse g input).1).world = g.world
  unfold game_undo
  rw [hg2stack]

/-- Counterexample for C3: a resolved debug command (debug list) is handled
with Normal status and pushes an undo snapshot, refuting the clause that
snapshots are pushed only for non-debug commands. -/
theorem debug_pushes_snapshot :
    parse_dbg g_empty.world "list" = Except.ok { is_debug := true, words := ["list"] } ∧
    (pcSystem parse_dbg g_empty "list").1.undoStack = [g_empty.world] := ⟨rfl, rfl⟩

/-- Witness for C3 (amended): a look command pushes the pre-command world,
and undo on the next turn restores it exactly. -/
theorem undo_exact_witness :
    (handle_input parse_look g_empty (mkPlayer g_empty) "look").1 = Except.ok Status.normal ∧
    (pcSystem parse_undo_cmd (runStep parse_look g_empty "look").1 "undo").1.world =
      g_empty.world :=
  ⟨rfl, (undo_exact parse_look g_empty "look" rfl parse_undo_cmd "undo" (fun wx => rfl)).2⟩

end Bonaventure
